import Mathlib

/-!
SyncStream: the room state machine of `server.js`

A shallow embedding of the Socket.IO event handlers of `src/server.js`
(lines 57-60 and 123-350) together with the upload route (lines 72-106) and
the hourly clean-up timer (lines 320-350).

Modelling conventions.

* A JavaScript `Map` is an association list in insertion order: `set` on an
  existing key replaces the value in place, `set` on a new key appends,
  `delete` removes the key.
* Objects held in a `Map` are mutated in place by the source; here the
  mutated object is written back under the same key.
* `Date.now()` and `Math.random()` are inputs of the event that reads them.
* Socket.IO itself is modelled at the level of its documented interface:
  every live socket is in the room named by its own id and in every room it
  has `join`ed; `io.to(r).emit` reaches the live sockets in room `r`,
  `socket.to(r).emit` reaches the same sockets except the sender, and
  `socket.emit` reaches the sender only.  When the `disconnect` handler
  runs the socket has already left all its rooms.
* Socket ids are strings handed out by the transport and never reused; room
  ids, user names and chat messages are strings; event payloads are flat
  JSON objects.  The empty string is the falsy string of JavaScript.
* `console.log` and the file system calls are left out.
-/

namespace SyncStream

/-! ## JavaScript maps and values -/

/-- Lookup of a key (`Map.prototype.get`), `none` for `undefined`. -/
def mapGet {κ α : Type} [DecidableEq κ] : List (κ × α) → κ → Option α
  | [], _ => none
  | (k', v) :: t, k => if k' = k then some v else mapGet t k

/-- Presence of a key (`Map.prototype.has`). -/
def mapHas {κ α : Type} [DecidableEq κ] (m : List (κ × α)) (k : κ) : Bool :=
  (mapGet m k).isSome

/-- Insertion or replacement (`Map.prototype.set`): an existing key keeps its
position, a new key goes last. -/
def mapSet {κ α : Type} [DecidableEq κ] : List (κ × α) → κ → α → List (κ × α)
  | [], k, v => [(k, v)]
  | (k', v') :: t, k, v => if k' = k then (k, v) :: t else (k', v') :: mapSet t k v

/-- Removal of a key (`Map.prototype.delete`). -/
def mapDelete {κ α : Type} [DecidableEq κ] (m : List (κ × α)) (k : κ) : List (κ × α) :=
  m.filter (fun e => decide (e.1 ≠ k))

/-- The keys in insertion order (`Map.prototype.keys`). -/
def mapKeys {κ α : Type} (m : List (κ × α)) : List κ := m.map Prod.fst

/-- The values in insertion order (`Map.prototype.values`). -/
def mapValues {κ α : Type} (m : List (κ × α)) : List α := m.map Prod.snd

/-- A JSON scalar as carried in an event payload.  Numbers are only stored
and forwarded by the server, never computed on. -/
inductive JVal where
  | undefined
  | null
  | bool (b : Bool)
  | num (n : Int)
  | str (s : String)
  deriving DecidableEq, Repr

/-- A flat JavaScript object: its own properties in order. -/
abbrev JObj := List (String × JVal)

/-- Property read `o.k`, `undefined` when the property is absent. -/
def field (o : JObj) (k : String) : JVal := (mapGet o k).getD JVal.undefined

/-- A possibly undefined string as a JavaScript value. -/
def optStr : Option String → JVal
  | none => JVal.undefined
  | some s => JVal.str s

abbrev SocketId := String
abbrev RoomId := String

/-! ## Data model -/

/-- An entry of `room.users` (server.js 144-148). -/
structure User where
  username : String
  userId : SocketId
  isHost : Bool
  deriving DecidableEq, Repr

/-- A value of the `rooms` map (server.js 134-140). -/
structure Room where
  users : List (SocketId × User)
  videoState : Option JObj
  currentVideo : Option JObj
  host : SocketId
  createdAt : Nat
  deriving DecidableEq, Repr

/-- A value of the `uploadedFiles` map (server.js 82-90). -/
structure FileInfo where
  filename : String
  originalName : String
  size : Nat
  mimetype : String
  uploadedBy : String
  uploadedAt : Nat
  roomId : RoomId
  deriving DecidableEq, Repr

/-- A live connection: the transport id, the two fields the handlers attach
to the socket object (`socket.roomId`, `socket.username`, both `undefined`
until `join-room`), and the Socket.IO rooms entered with `socket.join`. -/
structure Socket where
  id : SocketId
  roomId : Option RoomId
  username : Option String
  ioRooms : List RoomId
  deriving DecidableEq, Repr

/-- The process state: the two global maps, the live sockets and the ids of
the sockets that have disconnected. -/
structure State where
  rooms : List (RoomId × Room)
  uploadedFiles : List (String × FileInfo)
  sockets : List Socket
  closed : List SocketId
  deriving DecidableEq, Repr

/-- A server-to-client event with its payload. -/
inductive Msg where
  | roomState (users : List User) (videoState : Option JObj) (currentVideo : Option JObj)
  | userJoined (username : String) (userId : SocketId)
  | userLeft (username : Option String) (userId : SocketId)
  | userCountUpdate (count : Nat)
  | newHost (hostId : SocketId)
  | videoSync (videoState : JObj)
  | videoLoaded (videoInfo : JObj)
  | chatMessage (chatData : JObj)
  deriving DecidableEq, Repr

/-- One `emit`: the event and the sockets it is delivered to. -/
structure Emission where
  msg : Msg
  dest : List SocketId
  deriving DecidableEq, Repr

/-- The file handed over by the multipart parser (`req.file`). -/
structure UploadFile where
  filename : String
  originalname : String
  size : Nat
  mimetype : String
  deriving DecidableEq, Repr

/-- The inputs of the server. -/
inductive Event where
  | connect (id : SocketId)
  | joinRoom (id : SocketId) (roomId : RoomId) (username : String) (rnd : Nat) (now : Nat)
  | videoAction (id : SocketId) (data : JObj) (now : Nat)
  | videoLoaded (id : SocketId) (videoInfo : JObj) (now : Nat)
  | fileUploaded (id : SocketId) (fileData : JObj) (now : Nat)
  | videoUrlShared (id : SocketId) (data : JObj) (now : Nat)
  | chatMessage (id : SocketId) (message : String) (now : Nat)
  | disconnect (id : SocketId)
  | upload (file : Option UploadFile) (roomId : String) (username : String) (now : Nat)
  | sweep (now : Nat)
  deriving DecidableEq, Repr

/-! ## Socket.IO delivery -/

/-- Membership of a live socket in a Socket.IO room. -/
def inIoRoom (s : Socket) (r : RoomId) : Bool := decide (s.id = r) || decide (r ∈ s.ioRooms)

/-- Recipients of `io.to(r).emit`. -/
def ioTo (st : State) (r : RoomId) : List SocketId :=
  (st.sockets.filter (fun s => inIoRoom s r)).map Socket.id

/-- Recipients of `socket.to(r).emit` for the socket `self`. -/
def socketTo (st : State) (self : SocketId) (r : RoomId) : List SocketId :=
  (ioTo st r).filter (fun i => decide (i ≠ self))

/-- The live socket with the given id. -/
def findSocket (st : State) (id : SocketId) : Option Socket :=
  st.sockets.find? (fun s => decide (s.id = id))

/-- The room a handler works on after the guard `if (!socket.roomId) return;`:
`none` when `socket.roomId` is `undefined` or the empty string. -/
def boundRoom (sock : Socket) : Option RoomId :=
  match sock.roomId with
  | none => none
  | some r => if r = "" then none else some r

/-! ## Handlers -/

/-- The display name chosen at server.js 130. -/
def chooseName (username : String) (rnd : Nat) : String :=
  if username = "" then "User" ++ toString rnd else username

/-- The room object created at server.js 134-140. -/
def freshRoom (host : SocketId) (now : Nat) : Room :=
  { users := [], videoState := none, currentVideo := none, host := host, createdAt := now }

/-- Handler of `join-room` (server.js 127-167). -/
def joinRoom (st : State) (sock : Socket) (roomId : RoomId) (username : String)
    (rnd now : Nat) : State × List Emission :=
  let uname := chooseName username rnd
  let sock' : Socket :=
    { sock with
      roomId := some roomId
      username := some uname
      ioRooms := if roomId ∈ sock.ioRooms then sock.ioRooms else sock.ioRooms ++ [roomId] }
  let sockets' := st.sockets.map (fun s => if s.id = sock.id then sock' else s)
  let room : Room :=
    match mapGet st.rooms roomId with
    | some r => r
    | none => freshRoom sock.id now
  let room' : Room :=
    { room with
      users := mapSet room.users sock.id
        { username := uname, userId := sock.id, isHost := decide (room.host = sock.id) } }
  let st' : State := { st with rooms := mapSet st.rooms roomId room', sockets := sockets' }
  (st',
    [ { msg := Msg.roomState (mapValues room'.users) room'.videoState room'.currentVideo,
        dest := [sock.id] },
      { msg := Msg.userJoined uname sock.id, dest := socketTo st' sock.id roomId },
      { msg := Msg.userCountUpdate room'.users.length, dest := ioTo st' roomId } ])

/-- The playback state built at server.js 174-179. -/
def mkVideoState (sock : Socket) (data : JObj) (now : Nat) : JObj :=
  mapSet (mapSet (mapSet data "timestamp" (JVal.num now)) "userId" (JVal.str sock.id))
    "username" (optStr sock.username)

/-- Handler of `video-action` (server.js 170-185). -/
def videoAction (st : State) (sock : Socket) (data : JObj) (now : Nat) :
    State × List Emission :=
  match boundRoom sock with
  | none => (st, [])
  | some rid =>
    match mapGet st.rooms rid with
    | none => (st, [])
    | some room =>
      let videoState := mkVideoState sock data now
      ({ st with rooms := mapSet st.rooms rid { room with videoState := some videoState } },
        [ { msg := Msg.videoSync videoState, dest := socketTo st sock.id rid } ])

/-- The descriptor built at server.js 192-197. -/
def mkLoadedVideo (sock : Socket) (videoInfo : JObj) (now : Nat) : JObj :=
  mapSet (mapSet (mapSet videoInfo "loadedBy" (optStr sock.username)) "loadedAt" (JVal.num now))
    "userId" (JVal.str sock.id)

/-- Handler of `video-loaded` (server.js 188-202). -/
def videoLoaded (st : State) (sock : Socket) (videoInfo : JObj) (now : Nat) :
    State × List Emission :=
  match boundRoom sock with
  | none => (st, [])
  | some rid =>
    match mapGet st.rooms rid with
    | none => (st, [])
    | some room =>
      let currentVideo := mkLoadedVideo sock videoInfo now
      ({ st with rooms := mapSet st.rooms rid { room with currentVideo := some currentVideo } },
        [ { msg := Msg.videoLoaded currentVideo, dest := socketTo st sock.id rid } ])

/-- The descriptor built at server.js 209-216. -/
def mkUploadedVideo (sock : Socket) (fileData : JObj) (now : Nat) : JObj :=
  [ ("url", field fileData "videoUrl"),
    ("name", field fileData "originalName"),
    ("type", JVal.str "uploaded"),
    ("uploadedBy", optStr sock.username),
    ("uploadedAt", JVal.num now),
    ("size", field fileData "size") ]

/-- Handler of `file-uploaded` (server.js 205-222). -/
def fileUploaded (st : State) (sock : Socket) (fileData : JObj) (now : Nat) :
    State × List Emission :=
  match boundRoom sock with
  | none => (st, [])
  | some rid =>
    match mapGet st.rooms rid with
    | none => (st, [])
    | some room =>
      let videoInfo := mkUploadedVideo sock fileData now
      ({ st with rooms := mapSet st.rooms rid { room with currentVideo := some videoInfo } },
        [ { msg := Msg.videoLoaded videoInfo, dest := socketTo st sock.id rid } ])

/-- The descriptor built at server.js 229-237. -/
def mkSharedVideo (sock : Socket) (data : JObj) (now : Nat) : JObj :=
  [ ("url", field data "url"),
    ("name", field data "name"),
    ("type", JVal.str "url"),
    ("originalUrl", field data "originalUrl"),
    ("loadedBy", optStr sock.username),
    ("loadedAt", JVal.num now),
    ("userId", JVal.str sock.id) ]

/-- Handler of `video-url-shared` (server.js 225-243). -/
def videoUrlShared (st : State) (sock : Socket) (data : JObj) (now : Nat) :
    State × List Emission :=
  match boundRoom sock with
  | none => (st, [])
  | some rid =>
    match mapGet st.rooms rid with
    | none => (st, [])
    | some room =>
      let videoInfo := mkSharedVideo sock data now
      ({ st with rooms := mapSet st.rooms rid { room with currentVideo := some videoInfo } },
        [ { msg := Msg.videoLoaded videoInfo, dest := ioTo st rid } ])

/-- White space and line terminators removed by `String.prototype.trim`. -/
def isJsWhiteSpace (c : Char) : Bool :=
  let n := c.toNat
  n = 9 || n = 10 || n = 11 || n = 12 || n = 13 || n = 32 || n = 160 || n = 5760 ||
    (8192 ≤ n && n ≤ 8202) || n = 8232 || n = 8233 || n = 8239 || n = 8287 || n = 12288 ||
    n = 65279

/-- The method `String.prototype.trim`. -/
def jsTrim (s : String) : String :=
  String.mk ((s.data.dropWhile isJsWhiteSpace).reverse.dropWhile isJsWhiteSpace).reverse

/-- The chat event built at server.js 248-253. -/
def mkChatData (sock : Socket) (message : String) (now : Nat) : JObj :=
  [ ("username", optStr sock.username),
    ("message", JVal.str (jsTrim message)),
    ("timestamp", JVal.num now),
    ("userId", JVal.str sock.id) ]

/-- Handler of `chat-message` (server.js 246-257). -/
def chatMessage (st : State) (sock : Socket) (message : String) (now : Nat) :
    State × List Emission :=
  match boundRoom sock with
  | none => (st, [])
  | some rid =>
    if jsTrim message = "" then (st, [])
    else (st, [ { msg := Msg.chatMessage (mkChatData sock message now), dest := ioTo st rid } ])

/-- The function `cleanupRoomFiles` (server.js 298-318) on the `uploadedFiles` map. -/
def cleanupRoomFiles (files : List (String × FileInfo)) (roomId : RoomId) :
    List (String × FileInfo) :=
  let filesToDelete := (files.filter (fun e => decide (e.2.roomId = roomId))).map Prod.fst
  filesToDelete.foldl mapDelete files

/-- Handler of `disconnect` (server.js 260-290).  The socket has left the
server's socket list and all Socket.IO rooms when the handler runs. -/
def disconnect (st : State) (sock : Socket) : State × List Emission :=
  let st0 : State :=
    { st with
      sockets := st.sockets.filter (fun s => decide (s.id ≠ sock.id))
      closed := sock.id :: st.closed }
  match boundRoom sock with
  | none => (st0, [])
  | some rid =>
    match mapGet st0.rooms rid with
    | none => (st0, [])
    | some room =>
      let users := mapDelete room.users sock.id
      let left : Emission :=
        { msg := Msg.userLeft sock.username sock.id, dest := socketTo st0 sock.id rid }
      let count : Emission := { msg := Msg.userCountUpdate users.length, dest := ioTo st0 rid }
      let promoted : Option SocketId :=
        if room.host = sock.id ∧ 0 < users.length then (mapKeys users).head? else none
      let announce : List Emission :=
        match promoted with
        | some h => [ { msg := Msg.newHost h, dest := ioTo st0 rid } ]
        | none => []
      let room' : Room := { room with users := users, host := promoted.getD room.host }
      if users.length = 0 then
        ({ st0 with
            rooms := mapDelete st0.rooms rid
            uploadedFiles := cleanupRoomFiles st0.uploadedFiles rid },
          left :: count :: announce)
      else
        ({ st0 with rooms := mapSet st0.rooms rid room' }, left :: count :: announce)

/-- The retention age of the hourly clean-up (server.js 323), in milliseconds. -/
def maxAge : Int := 24 * 60 * 60 * 1000

/-- The size limit of the multipart parser (server.js 39), in bytes. -/
def fileSizeLimit : Nat := 500 * 1024 * 1024

/-- The method `String.prototype.startsWith`. -/
def jsStartsWith (s pre : String) : Bool := pre.data.isPrefixOf s.data

/-- The upload route (server.js 36-49 and 72-106) on the `uploadedFiles` map. -/
def upload (st : State) (file : Option UploadFile) (roomId username : String) (now : Nat) :
    State :=
  match file with
  | none => st
  | some f =>
    if !(jsStartsWith f.mimetype "video/") || decide (fileSizeLimit < f.size) then st
    else if roomId = "" then st
    else
      { st with
        uploadedFiles := mapSet st.uploadedFiles f.filename
          { filename := f.filename
            originalName := f.originalname
            size := f.size
            mimetype := f.mimetype
            uploadedBy := if username = "" then "Anonymous" else username
            uploadedAt := now
            roomId := roomId } }

/-- One visit of the first loop of the timer (server.js 325-334). -/
def sweepRoom (now : Nat) (acc : List (RoomId × Room) × List (String × FileInfo))
    (entry : RoomId × Room) : List (RoomId × Room) × List (String × FileInfo) :=
  if entry.2.users.length = 0 ∧ (now : Int) - (entry.2.createdAt : Int) > maxAge then
    (mapDelete acc.1 entry.1, cleanupRoomFiles acc.2 entry.1)
  else acc

/-- One visit of the second loop of the timer (server.js 336-349). -/
def sweepFile (now : Nat) (rooms : List (RoomId × Room)) (files : List (String × FileInfo))
    (entry : String × FileInfo) : List (String × FileInfo) :=
  if (now : Int) - (entry.2.uploadedAt : Int) > maxAge ∧ mapHas rooms entry.2.roomId = false then
    mapDelete files entry.1
  else files

/-- The hourly clean-up (server.js 321-350). -/
def sweep (st : State) (now : Nat) : State :=
  let afterRooms := st.rooms.foldl (sweepRoom now) (st.rooms, st.uploadedFiles)
  let files := afterRooms.2.foldl (sweepFile now afterRooms.1) afterRooms.2
  { st with rooms := afterRooms.1, uploadedFiles := files }

/-! ## The transition system -/

/-- The state after the process has started (server.js 58-59). -/
def init : State := { rooms := [], uploadedFiles := [], sockets := [], closed := [] }

/-- A new connection (server.js 124): the transport hands out an id that is
neither live nor used before. -/
def connect (st : State) (id : SocketId) : State :=
  if id ∈ st.sockets.map Socket.id ∨ id ∈ st.closed then st
  else { st with sockets := st.sockets ++ [{ id := id, roomId := none, username := none, ioRooms := [] }] }

/-- A socket event reaches its handler only while the socket is live. -/
def onSocket (st : State) (id : SocketId) (h : Socket → State × List Emission) :
    State × List Emission :=
  match findSocket st id with
  | none => (st, [])
  | some sock => h sock

/-- One input processed to completion: the new state and what was emitted. -/
def step (st : State) : Event → State × List Emission
  | Event.connect id => (connect st id, [])
  | Event.joinRoom id roomId username rnd now =>
      onSocket st id (fun sock => joinRoom st sock roomId username rnd now)
  | Event.videoAction id data now => onSocket st id (fun sock => videoAction st sock data now)
  | Event.videoLoaded id info now => onSocket st id (fun sock => videoLoaded st sock info now)
  | Event.fileUploaded id data now => onSocket st id (fun sock => fileUploaded st sock data now)
  | Event.videoUrlShared id data now =>
      onSocket st id (fun sock => videoUrlShared st sock data now)
  | Event.chatMessage id message now =>
      onSocket st id (fun sock => chatMessage st sock message now)
  | Event.disconnect id => onSocket st id (fun sock => disconnect st sock)
  | Event.upload file roomId username now => (upload st file roomId username now, [])
  | Event.sweep now => (sweep st now, [])

/-- The state after a sequence of inputs. -/
def run (st : State) (evs : List Event) : State :=
  evs.foldl (fun s e => (step s e).1) st

/-! ## Notions used in the statements -/

/-- The state reached when a participant joins (server.js 133-148): the room
found or created, with the joiner inserted. -/
def joinedRoom (id : SocketId) (username : String) (rnd : Nat) (base : Room) : Room :=
  { base with
    users := mapSet base.users id
      { username := chooseName username rnd, userId := id, isHost := decide (base.host = id) } }

/-- The room left behind when a participant leaves and others remain
(server.js 265-279). -/
def leftRoom (id : SocketId) (room : Room) : Room :=
  { room with
    users := mapDelete room.users id
    host := (if room.host = id ∧ 0 < (mapDelete room.users id).length
      then (mapKeys (mapDelete room.users id)).head? else none).getD room.host }

/-- Every room of the registry has its host among the keys of `users`. -/
def HostInv (st : State) : Prop :=
  ∀ r room, mapGet st.rooms r = some room → room.host ∈ mapKeys room.users

/-- The three socket events that load a video, with payload and time. -/
inductive VideoLoad where
  | urlShared (data : JObj) (now : Nat)
  | fileUploaded (fileData : JObj) (now : Nat)
  | videoLoaded (videoInfo : JObj) (now : Nat)
  deriving DecidableEq, Repr

/-- The socket event of a video load sent by connection `id`. -/
def VideoLoad.event (id : SocketId) : VideoLoad → Event
  | VideoLoad.urlShared data now => Event.videoUrlShared id data now
  | VideoLoad.fileUploaded data now => Event.fileUploaded id data now
  | VideoLoad.videoLoaded info now => Event.videoLoaded id info now

/-- The descriptor the handler of a video load builds for the sender `sock`. -/
def VideoLoad.descriptor (sock : Socket) : VideoLoad → JObj
  | VideoLoad.urlShared data now => mkSharedVideo sock data now
  | VideoLoad.fileUploaded data now => mkUploadedVideo sock data now
  | VideoLoad.videoLoaded info now => mkLoadedVideo sock info now

/-- Connection `id` is bound to the existing room `r`: it is live, its
`socket.roomId` is `r` (the value stored by `join-room`, the empty string
included), and `rooms.get(r)` is `room`. -/
def Joined (st : State) (id : SocketId) (sock : Socket) (r : RoomId) (room : Room) : Prop :=
  findSocket st id = some sock ∧ sock.roomId = some r ∧ mapGet st.rooms r = some room

/-- Connection `id` is live, passes the guard `if (!socket.roomId) return;`
with room id `r` (so `r` is not the empty string), and `rooms.get(r)` is
`room`.  This is `Joined` together with `r ≠ ""`. -/
def Bound (st : State) (id : SocketId) (sock : Socket) (r : RoomId) (room : Room) : Prop :=
  findSocket st id = some sock ∧ boundRoom sock = some r ∧ mapGet st.rooms r = some room

/-- The `video-action` events for a list of senders, payloads and times. -/
def actionEvents (actions : List (SocketId × JObj × Nat)) : List Event :=
  actions.map (fun a => Event.videoAction a.1 a.2.1 a.2.2)

/-- The playback state a `video-action` writes into room `r`, given the live
sockets of `st`: none when the sender is not live or does not pass the guard
with room id `r`. -/
def actionOn (st : State) (r : RoomId) (a : SocketId × JObj × Nat) : Option JObj :=
  match findSocket st a.1 with
  | none => none
  | some s => if boundRoom s = some r then some (mkVideoState s a.2.1 a.2.2) else none

/-- The playback state of room `r` after a run of playback actions: that of
the last action written into `r`, or the earlier one when there was none. -/
def playbackAfter (st : State) (r : RoomId) (prev : Option JObj)
    (actions : List (SocketId × JObj × Nat)) : Option JObj :=
  match (actions.filterMap (actionOn st r)).getLast? with
  | none => prev
  | some v => some v

/-- The socket object after `join-room` (server.js 128-130). -/
def joinedSocket (sock : Socket) (roomId : RoomId) (username : String) (rnd : Nat) : Socket :=
  { sock with
    roomId := some roomId
    username := some (chooseName username rnd)
    ioRooms := if roomId ∈ sock.ioRooms then sock.ioRooms else sock.ioRooms ++ [roomId] }

/-- A live socket with `socket.roomId` set has entered the Socket.IO room
of that name and carries a display name. -/
def SockInv (st : State) : Prop :=
  ∀ s ∈ st.sockets, ∀ r, s.roomId = some r → r ∈ s.ioRooms ∧ ∃ name, s.username = some name

/-- Live sockets have pairwise different ids, none of them a closed id. -/
def LiveInv (st : State) : Prop :=
  (∀ t ∈ st.sockets, ∀ t' ∈ st.sockets, t.id = t'.id → t = t') ∧
    ∀ t ∈ st.sockets, t.id ∉ st.closed

/-- Connection `k` is closed, or it is live and in the Socket.IO room `r`. -/
def ClosedOrIn (st : State) (k : SocketId) (r : RoomId) : Prop :=
  k ∈ st.closed ∨ ∃ t ∈ st.sockets, t.id = k ∧ r ∈ t.ioRooms

/-- Every key of a participant map is a closed connection or a live one that
has entered the Socket.IO room of that name. -/
def MemInv (st : State) : Prop :=
  ∀ r room k, mapGet st.rooms r = some room → k ∈ mapKeys room.users → ClosedOrIn st k r

/-- The file names `cleanupRoomFiles` collects for a room (server.js 299-304). -/
def filesToDelete (files : List (String × FileInfo)) (roomId : RoomId) : List String :=
  (files.filter (fun e => decide (e.2.roomId = roomId))).map Prod.fst

/-- The keys of the uploaded-file table are pairwise different. -/
def FilesInv (st : State) : Prop := (mapKeys st.uploadedFiles).Nodup

/-- The room id of a `join-room` sent by connection `id`, if the input is one. -/
def joinOf (id : SocketId) : Event → Option RoomId
  | Event.joinRoom i r _ _ _ => if i = id then some r else none
  | _ => none

/-- The room ids connection `id` has sent `join-room` for, in order. -/
def joinsOf (id : SocketId) (evs : List Event) : List RoomId := evs.filterMap (joinOf id)

/-- The keys of the room registry are pairwise different. -/
def RoomsInv (st : State) : Prop := (mapKeys st.rooms).Nodup

/-- The test of the second loop of the timer (server.js 337-338): the record
is older than the retention age and its room is not in the registry. -/
def isExpiredOrphan (now : Nat) (rooms : List (RoomId × Room)) (info : FileInfo) : Bool :=
  decide ((now : Int) - (info.uploadedAt : Int) > maxAge) && !mapHas rooms info.roomId

/-- A text that `String.prototype.trim` reduces to the empty string: every
character is white space or a line terminator. -/
def isBlank (message : String) : Prop := ∀ c ∈ message.data, isJsWhiteSpace c = true

/-- The file names the second loop of the timer deletes while it visits the
entries `visit`. -/
def expiredKeys (now : Nat) (rooms : List (RoomId × Room)) (visit : List (String × FileInfo)) :
    List String :=
  (visit.filter (fun e => isExpiredOrphan now rooms e.2)).map Prod.fst

/-! ## Sample inputs -/

/-- Sample inputs: Alice and Bob join room `r`, then Alice disconnects. -/
def demoHostLeaves : List Event :=
  [ Event.connect "A", Event.connect "B",
    Event.joinRoom "A" "r" "Alice" 0 1, Event.joinRoom "B" "r" "Bob" 0 2,
    Event.disconnect "A" ]

/-- Sample inputs: Alice joins `r`, shares a URL, plays, shares another URL. -/
def demoTwoLoads : List Event :=
  [ Event.connect "A", Event.joinRoom "A" "r" "Alice" 0 1,
    Event.videoUrlShared "A" [("url", JVal.str "u1"), ("name", JVal.str "one")] 2,
    Event.videoAction "A" [("action", JVal.str "play"), ("currentTime", JVal.num 5)] 3,
    Event.videoUrlShared "A" [("url", JVal.str "u2"), ("name", JVal.str "two")] 4 ]

/-- Sample inputs: Alice and Bob are both in room `r`. -/
def demoTwoInRoom : List Event :=
  [ Event.connect "A", Event.connect "B",
    Event.joinRoom "A" "r" "Alice" 0 1, Event.joinRoom "B" "r" "Bob" 0 2 ]

/-- The socket of Bob after `demoTwoInRoom`. -/
def demoBob : Socket := { id := "B", roomId := some "r", username := some "Bob", ioRooms := ["r"] }

/-- The room `r` after `demoTwoInRoom`. -/
def demoRoom : Room :=
  { users := [("A", { username := "Alice", userId := "A", isHost := true }),
              ("B", { username := "Bob", userId := "B", isHost := false })],
    videoState := none, currentVideo := none, host := "A", createdAt := 1 }

/-- Sample inputs: a file is uploaded for room `r` and one for room `q`,
then Alice joins `r`. -/
def demoUploads : List Event :=
  [ Event.upload (some ⟨"f1.mp4", "a.mp4", 10, "video/mp4"⟩) "r" "Alice" 1,
    Event.upload (some ⟨"f2.mp4", "b.mp4", 20, "video/mp4"⟩) "q" "Quinn" 2,
    Event.connect "A", Event.joinRoom "A" "r" "Alice" 0 3 ]

/-- Sample inputs: Alice creates room `r1`, Bob joins it, then Alice joins
room `r2` on the same connection. -/
def demoRejoin : List Event :=
  [ Event.connect "A", Event.connect "B",
    Event.joinRoom "A" "r1" "Alice" 0 1, Event.joinRoom "B" "r1" "Bob" 0 2,
    Event.joinRoom "A" "r2" "Alice" 0 3 ]

/-- Sample inputs: Alice and Bob join the room whose id is the empty string. -/
def demoEmptyRoomId : List Event :=
  [ Event.connect "A", Event.connect "B",
    Event.joinRoom "A" "" "Alice" 0 1, Event.joinRoom "B" "" "Bob" 0 2 ]

/-- The socket of Bob after `demoEmptyRoomId`. -/
def demoBobEmpty : Socket :=
  { id := "B", roomId := some "", username := some "Bob", ioRooms := [""] }

/-- The room with the empty id after `demoEmptyRoomId`. -/
def demoRoomEmpty : Room :=
  { users := [("A", { username := "Alice", userId := "A", isHost := true }),
              ("B", { username := "Bob", userId := "B", isHost := false })],
    videoState := none, currentVideo := none, host := "A", createdAt := 1 }

/-- Sample inputs: Alice alone joins the room whose id is the empty string. -/
def demoAloneEmptyRoomId : List Event :=
  [ Event.connect "A", Event.joinRoom "A" "" "Alice" 0 1 ]

/-- The socket of Alice after `demoTwoInRoom`. -/
def demoAlice : Socket :=
  { id := "A", roomId := some "r", username := some "Alice", ioRooms := ["r"] }

/-! ## Facts about maps -/

theorem mapGet_mapSet_self {κ α : Type} [DecidableEq κ] (m : List (κ × α)) (k : κ) (v : α) :
    mapGet (mapSet m k v) k = some v := by
  induction m with
  | nil => simp [mapSet, mapGet]
  | cons e t ih =>
    obtain ⟨k', v'⟩ := e
    by_cases h : k' = k
    · simp [mapSet, mapGet, h]
    · simp [mapSet, mapGet, h, ih]

theorem mapGet_mapSet_ne {κ α : Type} [DecidableEq κ] (m : List (κ × α)) (k k' : κ) (v : α)
    (hne : k ≠ k') : mapGet (mapSet m k v) k' = mapGet m k' := by
  induction m with
  | nil => simp [mapSet, mapGet, hne]
  | cons e t ih =>
    obtain ⟨k₀, v₀⟩ := e
    by_cases h : k₀ = k
    · subst h
      simp [mapSet, mapGet, hne]
    · by_cases h' : k₀ = k'
      · subst h'
        simp [mapSet, mapGet, h]
      · simp [mapSet, mapGet, h, h', ih]

theorem mapGet_mapDelete_self {κ α : Type} [DecidableEq κ] (m : List (κ × α)) (k : κ) :
    mapGet (mapDelete m k) k = none := by
  induction m with
  | nil => simp [mapDelete, mapGet]
  | cons e t ih =>
    obtain ⟨k₀, v₀⟩ := e
    by_cases h : k₀ = k
    · simpa [mapDelete, List.filter_cons, h] using ih
    · simpa [mapDelete, List.filter_cons, h, mapGet] using ih

theorem mapGet_mapDelete_ne {κ α : Type} [DecidableEq κ] (m : List (κ × α)) (k k' : κ)
    (hne : k ≠ k') : mapGet (mapDelete m k) k' = mapGet m k' := by
  induction m with
  | nil => simp [mapDelete, mapGet]
  | cons e t ih =>
    obtain ⟨k₀, v₀⟩ := e
    by_cases h : k₀ = k
    · subst h
      simpa [mapDelete, List.filter_cons, mapGet, hne] using ih
    · by_cases h' : k₀ = k'
      · subst h'
        simp [mapDelete, List.filter_cons, h, mapGet]
      · simpa [mapDelete, List.filter_cons, h, mapGet, h'] using ih

theorem mapGet_mapDelete_some {κ α : Type} [DecidableEq κ] (m : List (κ × α)) (k k' : κ)
    (v : α) (h : mapGet (mapDelete m k) k' = some v) : k ≠ k' ∧ mapGet m k' = some v := by
  by_cases hk : k = k'
  · subst hk
    rw [mapGet_mapDelete_self] at h
    cases h
  · exact ⟨hk, by rwa [mapGet_mapDelete_ne m k k' hk] at h⟩

theorem mem_mapKeys_mapSet {κ α : Type} [DecidableEq κ] (m : List (κ × α)) (k x : κ) (v : α) :
    x ∈ mapKeys (mapSet m k v) ↔ x = k ∨ x ∈ mapKeys m := by
  induction m with
  | nil => simp [mapSet, mapKeys]
  | cons e t ih =>
    obtain ⟨k₀, v₀⟩ := e
    by_cases h : k₀ = k
    · subst h
      simp [mapSet, mapKeys]
    · have ih' : x ∈ List.map Prod.fst (mapSet t k v) ↔ x = k ∨ x ∈ List.map Prod.fst t := ih
      simp only [mapSet, mapKeys, h, if_false, List.map_cons, List.mem_cons, ih']
      tauto

theorem mem_mapKeys_mapDelete {κ α : Type} [DecidableEq κ] (m : List (κ × α)) (k x : κ) :
    x ∈ mapKeys (mapDelete m k) ↔ x ≠ k ∧ x ∈ mapKeys m := by
  simp only [mapKeys, mapDelete, List.mem_map, List.mem_filter, decide_eq_true_eq]
  constructor
  · rintro ⟨e, ⟨he, hne⟩, rfl⟩
    exact ⟨hne, e, he, rfl⟩
  · rintro ⟨hne, e, he, rfl⟩
    exact ⟨e, ⟨he, hne⟩, rfl⟩

theorem mapGet_isSome_iff {κ α : Type} [DecidableEq κ] (m : List (κ × α)) (k : κ) :
    (mapGet m k).isSome = true ↔ k ∈ mapKeys m := by
  induction m with
  | nil => simp [mapGet, mapKeys]
  | cons e t ih =>
    obtain ⟨k₀, v₀⟩ := e
    have ih' : (mapGet t k).isSome = true ↔ k ∈ List.map Prod.fst t := ih
    by_cases h : k₀ = k
    · simp [mapGet, mapKeys, h]
    · have h' : ¬ k = k₀ := fun e => h e.symm
      simp [mapGet, mapKeys, h, h', ih']

theorem mapGet_mem {κ α : Type} [DecidableEq κ] (m : List (κ × α)) (k : κ) (v : α)
    (h : mapGet m k = some v) : (k, v) ∈ m := by
  induction m with
  | nil => simp [mapGet] at h
  | cons e t ih =>
    obtain ⟨k₀, v₀⟩ := e
    by_cases hk : k₀ = k
    · simp [mapGet, hk] at h
      simp [hk, h]
    · simp [mapGet, hk] at h
      exact List.mem_cons_of_mem _ (ih h)

theorem head_mem_mapKeys {κ α : Type} (m : List (κ × α)) (k : κ)
    (h : (mapKeys m).head? = some k) : k ∈ mapKeys m := by
  cases m with
  | nil => simp [mapKeys] at h
  | cons e t =>
    simp [mapKeys] at h
    simp [mapKeys, h]

theorem findSocket_id (st : State) (id : SocketId) (sock : Socket)
    (h : findSocket st id = some sock) : sock.id = id := by
  have := List.find?_some h
  simpa using this

theorem findSocket_mem (st : State) (id : SocketId) (sock : Socket)
    (h : findSocket st id = some sock) : sock ∈ st.sockets :=
  List.mem_of_find?_eq_some h

/-! ## The effect of one input on the room registry -/

/-- Writing back a room with the same participants and host keeps the
participants and host of every room. -/
theorem mapSet_room_frame (rooms : List (RoomId × Room)) (rid r : RoomId) (room new room' : Room)
    (hget : mapGet rooms rid = some room) (h : mapGet (mapSet rooms rid new) r = some room')
    (hu : new.users = room.users) (hh : new.host = room.host) :
    ∃ old, mapGet rooms r = some old ∧ room'.users = old.users ∧ room'.host = old.host := by
  by_cases hr : rid = r
  · subst hr
    rw [mapGet_mapSet_self] at h
    cases h
    exact ⟨room, hget, hu, hh⟩
  · rw [mapGet_mapSet_ne _ _ _ _ hr] at h
    exact ⟨room', h, rfl, rfl⟩

theorem videoAction_rooms (st : State) (sock : Socket) (data : JObj) (now : Nat) (r : RoomId)
    (room' : Room) (h : mapGet (videoAction st sock data now).1.rooms r = some room') :
    ∃ old, mapGet st.rooms r = some old ∧ room'.users = old.users ∧ room'.host = old.host := by
  unfold videoAction at h
  split at h
  · exact ⟨room', h, rfl, rfl⟩
  · split at h
    · exact ⟨room', h, rfl, rfl⟩
    · next room hroom => exact mapSet_room_frame _ _ _ room _ _ hroom h rfl rfl

theorem videoLoaded_rooms (st : State) (sock : Socket) (info : JObj) (now : Nat) (r : RoomId)
    (room' : Room) (h : mapGet (videoLoaded st sock info now).1.rooms r = some room') :
    ∃ old, mapGet st.rooms r = some old ∧ room'.users = old.users ∧ room'.host = old.host := by
  unfold videoLoaded at h
  split at h
  · exact ⟨room', h, rfl, rfl⟩
  · split at h
    · exact ⟨room', h, rfl, rfl⟩
    · next room hroom => exact mapSet_room_frame _ _ _ room _ _ hroom h rfl rfl

theorem fileUploaded_rooms (st : State) (sock : Socket) (data : JObj) (now : Nat) (r : RoomId)
    (room' : Room) (h : mapGet (fileUploaded st sock data now).1.rooms r = some room') :
    ∃ old, mapGet st.rooms r = some old ∧ room'.users = old.users ∧ room'.host = old.host := by
  unfold fileUploaded at h
  split at h
  · exact ⟨room', h, rfl, rfl⟩
  · split at h
    · exact ⟨room', h, rfl, rfl⟩
    · next room hroom => exact mapSet_room_frame _ _ _ room _ _ hroom h rfl rfl

theorem videoUrlShared_rooms (st : State) (sock : Socket) (data : JObj) (now : Nat)
    (r : RoomId) (room' : Room)
    (h : mapGet (videoUrlShared st sock data now).1.rooms r = some room') :
    ∃ old, mapGet st.rooms r = some old ∧ room'.users = old.users ∧ room'.host = old.host := by
  unfold videoUrlShared at h
  split at h
  · exact ⟨room', h, rfl, rfl⟩
  · split at h
    · exact ⟨room', h, rfl, rfl⟩
    · next room hroom => exact mapSet_room_frame _ _ _ room _ _ hroom h rfl rfl

theorem chatMessage_state (st : State) (sock : Socket) (message : String) (now : Nat) :
    (chatMessage st sock message now).1 = st := by
  unfold chatMessage
  split
  · rfl
  · split <;> rfl

theorem upload_rooms (st : State) (file : Option UploadFile) (roomId username : String)
    (now : Nat) : (upload st file roomId username now).rooms = st.rooms := by
  unfold upload
  split
  · rfl
  · split
    · rfl
    · split <;> rfl

/-- The first loop of the timer only removes rooms, and only rooms without
participants. -/
theorem sweepRoom_fold_rooms (now : Nat) (visit : List (RoomId × Room))
    (acc : List (RoomId × Room) × List (String × FileInfo)) (r : RoomId) (room : Room)
    (h : mapGet (visit.foldl (sweepRoom now) acc).1 r = some room) :
    mapGet acc.1 r = some room := by
  induction visit generalizing acc with
  | nil => simpa using h
  | cons e t ih =>
    have h1 := ih (sweepRoom now acc e) (by simpa [List.foldl_cons] using h)
    unfold sweepRoom at h1
    split at h1
    · exact (mapGet_mapDelete_some _ _ _ _ h1).2
    · exact h1

theorem sweep_rooms (st : State) (now : Nat) (r : RoomId) (room : Room)
    (h : mapGet (sweep st now).rooms r = some room) : mapGet st.rooms r = some room :=
  sweepRoom_fold_rooms now st.rooms (st.rooms, st.uploadedFiles) r room h

theorem joinRoom_rooms (st : State) (sock : Socket) (rid : RoomId) (username : String)
    (rnd now : Nat) (r : RoomId) (room' : Room)
    (h : mapGet (joinRoom st sock rid username rnd now).1.rooms r = some room') :
    (r ≠ rid ∧ mapGet st.rooms r = some room') ∨
    (r = rid ∧ ∃ base, (mapGet st.rooms r = some base ∨
        (mapGet st.rooms r = none ∧ base = freshRoom sock.id now)) ∧
      room' = joinedRoom sock.id username rnd base) := by
  unfold joinRoom at h
  simp only at h
  by_cases hr : rid = r
  · subst hr
    rw [mapGet_mapSet_self] at h
    right
    refine ⟨rfl, ?_⟩
    cases hg : mapGet st.rooms rid with
    | none =>
      refine ⟨freshRoom sock.id now, Or.inr ⟨rfl, rfl⟩, ?_⟩
      simp only [hg] at h
      cases h
      rfl
    | some base =>
      refine ⟨base, Or.inl rfl, ?_⟩
      simp only [hg] at h
      cases h
      rfl
  · rw [mapGet_mapSet_ne _ _ _ _ hr] at h
    exact Or.inl ⟨fun e => hr e.symm, h⟩

theorem disconnect_rooms (st : State) (sock : Socket) (r : RoomId) (room' : Room)
    (h : mapGet (disconnect st sock).1.rooms r = some room') :
    mapGet st.rooms r = some room' ∨
    (boundRoom sock = some r ∧ ∃ room, mapGet st.rooms r = some room ∧
      (mapDelete room.users sock.id).length ≠ 0 ∧ room' = leftRoom sock.id room) := by
  unfold disconnect at h
  simp only at h
  split at h
  · exact Or.inl h
  · next rid hb =>
    split at h
    · exact Or.inl h
    · next room hroom =>
      split at h
      · exact Or.inl (mapGet_mapDelete_some _ _ _ _ h).2
      · next hne =>
        by_cases hr : rid = r
        · subst hr
          rw [mapGet_mapSet_self] at h
          cases h
          exact Or.inr ⟨hb, room, hroom, hne, rfl⟩
        · rw [mapGet_mapSet_ne _ _ _ _ hr] at h
          exact Or.inl h

/-- How one input can change a room of the registry: it keeps participants
and host, or a participant joins it, or a participant leaves it and others
remain. -/
theorem step_rooms (st : State) (e : Event) (r : RoomId) (room' : Room)
    (h : mapGet (step st e).1.rooms r = some room') :
    (∃ old, mapGet st.rooms r = some old ∧ room'.users = old.users ∧ room'.host = old.host) ∨
    (∃ id username rnd now base, e = Event.joinRoom id r username rnd now ∧
      (∃ sock, findSocket st id = some sock) ∧
      (mapGet st.rooms r = some base ∨ (mapGet st.rooms r = none ∧ base = freshRoom id now)) ∧
      room' = joinedRoom id username rnd base) ∨
    (∃ id sock room, e = Event.disconnect id ∧ findSocket st id = some sock ∧
      boundRoom sock = some r ∧ mapGet st.rooms r = some room ∧
      (mapDelete room.users id).length ≠ 0 ∧ room' = leftRoom id room) := by
  cases e with
  | connect id =>
    left
    refine ⟨room', ?_, rfl, rfl⟩
    simp only [step, connect] at h
    split at h <;> exact h
  | joinRoom id rid username rnd now =>
    simp only [step, onSocket] at h
    cases hs : findSocket st id with
    | none =>
      simp only [hs] at h
      exact Or.inl ⟨room', h, rfl, rfl⟩
    | some sock =>
      simp only [hs] at h
      have hid := findSocket_id st id sock hs
      rcases joinRoom_rooms st sock rid username rnd now r room' h with ⟨_, h1⟩ | ⟨h1, base, h2, h3⟩
      · exact Or.inl ⟨room', h1, rfl, rfl⟩
      · subst h1
        rw [hid] at h2 h3
        exact Or.inr (Or.inl ⟨id, username, rnd, now, base, rfl, ⟨sock, hs⟩, h2, h3⟩)
  | videoAction id data now =>
    simp only [step, onSocket] at h
    cases hs : findSocket st id with
    | none =>
      simp only [hs] at h
      exact Or.inl ⟨room', h, rfl, rfl⟩
    | some sock =>
      simp only [hs] at h
      exact Or.inl (videoAction_rooms st sock data now r room' h)
  | videoLoaded id data now =>
    simp only [step, onSocket] at h
    cases hs : findSocket st id with
    | none =>
      simp only [hs] at h
      exact Or.inl ⟨room', h, rfl, rfl⟩
    | some sock =>
      simp only [hs] at h
      exact Or.inl (videoLoaded_rooms st sock data now r room' h)
  | fileUploaded id data now =>
    simp only [step, onSocket] at h
    cases hs : findSocket st id with
    | none =>
      simp only [hs] at h
      exact Or.inl ⟨room', h, rfl, rfl⟩
    | some sock =>
      simp only [hs] at h
      exact Or.inl (fileUploaded_rooms st sock data now r room' h)
  | videoUrlShared id data now =>
    simp only [step, onSocket] at h
    cases hs : findSocket st id with
    | none =>
      simp only [hs] at h
      exact Or.inl ⟨room', h, rfl, rfl⟩
    | some sock =>
      simp only [hs] at h
      exact Or.inl (videoUrlShared_rooms st sock data now r room' h)
  | chatMessage id message now =>
    simp only [step, onSocket] at h
    cases hs : findSocket st id with
    | none =>
      simp only [hs] at h
      exact Or.inl ⟨room', h, rfl, rfl⟩
    | some sock =>
      simp only [hs, chatMessage_state] at h
      exact Or.inl ⟨room', h, rfl, rfl⟩
  | disconnect id =>
    simp only [step, onSocket] at h
    cases hs : findSocket st id with
    | none =>
      simp only [hs] at h
      exact Or.inl ⟨room', h, rfl, rfl⟩
    | some sock =>
      simp only [hs] at h
      have hid := findSocket_id st id sock hs
      rcases disconnect_rooms st sock r room' h with h1 | ⟨hb, room, h2, h3, h4⟩
      · exact Or.inl ⟨room', h1, rfl, rfl⟩
      · rw [hid] at h3 h4
        exact Or.inr (Or.inr ⟨id, sock, room, rfl, hs, hb, h2, h3, h4⟩)
  | upload file roomId username now =>
    simp only [step, upload_rooms] at h
    exact Or.inl ⟨room', h, rfl, rfl⟩
  | sweep now =>
    simp only [step] at h
    exact Or.inl ⟨room', sweep_rooms st now r room' h, rfl, rfl⟩

/-! ## Reachable states -/

theorem run_nil (st : State) : run st [] = st := rfl

theorem run_cons (st : State) (e : Event) (evs : List Event) :
    run st (e :: evs) = run (step st e).1 evs := rfl

theorem run_append (st : State) (evs evs' : List Event) :
    run st (evs ++ evs') = run (run st evs) evs' := by
  simp [run, List.foldl_append]

theorem run_snoc (st : State) (evs : List Event) (e : Event) :
    run st (evs ++ [e]) = (step (run st evs) e).1 := by
  simp [run, List.foldl_append]

/-- A property of the initial state kept by every input holds in every
reachable state. -/
theorem run_invariant (P : State → Prop) (h0 : P init)
    (hstep : ∀ st e, P st → P (step st e).1) (evs : List Event) : P (run init evs) := by
  induction evs using List.reverseRecOn with
  | nil => exact h0
  | append_singleton evs e ih =>
    rw [run_snoc]
    exact hstep _ e ih

/-! ## The host is a participant -/

theorem leftRoom_host_mem_of_host (id : SocketId) (room : Room) (hhost : room.host = id)
    (hne : (mapDelete room.users id).length ≠ 0) :
    (leftRoom id room).host ∈ mapKeys (mapDelete room.users id) := by
  unfold leftRoom
  simp only
  have hpos : 0 < (mapDelete room.users id).length := Nat.pos_of_ne_zero hne
  rw [if_pos ⟨hhost, hpos⟩]
  cases hk : (mapKeys (mapDelete room.users id)).head? with
  | none =>
    exfalso
    cases hl : mapDelete room.users id with
    | nil => simp [hl] at hne
    | cons a t => simp [hl, mapKeys] at hk
  | some k => exact head_mem_mapKeys _ _ hk

theorem leftRoom_host_mem (id : SocketId) (room : Room)
    (hinv : room.host ∈ mapKeys room.users) (hne : (mapDelete room.users id).length ≠ 0) :
    (leftRoom id room).host ∈ mapKeys (leftRoom id room).users := by
  unfold leftRoom
  simp only
  by_cases hh : room.host = id
  · have hpos : 0 < (mapDelete room.users id).length := Nat.pos_of_ne_zero hne
    rw [if_pos ⟨hh, hpos⟩]
    cases hk : (mapKeys (mapDelete room.users id)).head? with
    | none =>
      exfalso
      cases hl : mapDelete room.users id with
      | nil => simp [hl] at hne
      | cons a t => simp [hl, mapKeys] at hk
    | some k => exact head_mem_mapKeys _ _ hk
  · have hcond : ¬ (room.host = id ∧ 0 < (mapDelete room.users id).length) := fun c => hh c.1
    rw [if_neg hcond]
    exact (mem_mapKeys_mapDelete _ _ _).2 ⟨hh, hinv⟩

theorem hostInv_step (st : State) (e : Event) (hinv : HostInv st) : HostInv (step st e).1 := by
  intro r room' h
  rcases step_rooms st e r room' h with ⟨old, h1, hu, hh⟩ |
    ⟨id, username, rnd, now, base, _, _, hbase, rfl⟩ | ⟨id, sock, room, _, _, _, hroom, hne, rfl⟩
  · rw [hu, hh]
    exact hinv r old h1
  · unfold joinedRoom
    simp only
    rw [mem_mapKeys_mapSet]
    rcases hbase with hb | ⟨_, hb⟩
    · exact Or.inr (hinv r base hb)
    · left
      rw [hb]
      rfl
  · exact leftRoom_host_mem id room (hinv r room hroom) hne

theorem hostInv_run (evs : List Event) : HostInv (run init evs) :=
  run_invariant HostInv (by intro r room h; simp [init, mapGet] at h) hostInv_step evs

/-- C1: after any finite sequence of inputs from the empty registry, every
room of the registry with at least one participant has a host that is a key
of its participant map. -/
theorem host_is_participant (evs : List Event) (r : RoomId) (room : Room)
    (hroom : mapGet (run init evs).rooms r = some room) (_hne : room.users ≠ []) :
    room.host ∈ mapKeys room.users :=
  hostInv_run evs r room hroom

theorem host_is_participant_witness :
    ∃ room, mapGet (run init demoHostLeaves).rooms "r" = some room ∧ room.users ≠ [] ∧
      room.host ∈ mapKeys room.users :=
  ⟨{ users := [("B", { username := "Bob", userId := "B", isHost := false })],
     videoState := none, currentVideo := none, host := "B", createdAt := 1 },
    by decide, by decide,
    host_is_participant demoHostLeaves "r" _ (by decide) (by decide)⟩

/-! ## Loading a video and playback actions -/

theorem Bound.write (st : State) (id : SocketId) (sock : Socket) (r : RoomId) (room new : Room)
    (h : Bound st id sock r room) :
    Bound { st with rooms := mapSet st.rooms r new } id sock r new :=
  ⟨h.1, h.2.1, mapGet_mapSet_self _ _ _⟩

theorem boundRoom_of_roomId (sock : Socket) (r : RoomId) (h : sock.roomId = some r)
    (hne : r ≠ "") : boundRoom sock = some r := by
  simp [boundRoom, h, hne]

theorem Joined.bound {st : State} {id : SocketId} {sock : Socket} {r : RoomId} {room : Room}
    (h : Joined st id sock r room) (hne : r ≠ "") : Bound st id sock r room :=
  ⟨h.1, boundRoom_of_roomId sock r h.2.1 hne, h.2.2⟩

theorem findSocket_congr (st st' : State) (h : st'.sockets = st.sockets) (id : SocketId) :
    findSocket st' id = findSocket st id := by
  unfold findSocket
  rw [h]

theorem step_videoAction_bound (st : State) (id : SocketId) (sock : Socket) (r : RoomId)
    (room : Room) (h : Bound st id sock r room) (data : JObj) (now : Nat) :
    step st (Event.videoAction id data now) =
      ({ st with
          rooms := mapSet st.rooms r
            { room with videoState := some (mkVideoState sock data now) } },
        [ { msg := Msg.videoSync (mkVideoState sock data now), dest := socketTo st sock.id r } ]) := by
  obtain ⟨h1, h2, h3⟩ := h
  simp only [step, onSocket, h1, videoAction, h2, h3]

theorem step_videoUrlShared_bound (st : State) (id : SocketId) (sock : Socket) (r : RoomId)
    (room : Room) (h : Bound st id sock r room) (data : JObj) (now : Nat) :
    step st (Event.videoUrlShared id data now) =
      ({ st with
          rooms := mapSet st.rooms r
            { room with currentVideo := some (mkSharedVideo sock data now) } },
        [ { msg := Msg.videoLoaded (mkSharedVideo sock data now), dest := ioTo st r } ]) := by
  obtain ⟨h1, h2, h3⟩ := h
  simp only [step, onSocket, h1, videoUrlShared, h2, h3]

theorem step_fileUploaded_bound (st : State) (id : SocketId) (sock : Socket) (r : RoomId)
    (room : Room) (h : Bound st id sock r room) (data : JObj) (now : Nat) :
    step st (Event.fileUploaded id data now) =
      ({ st with
          rooms := mapSet st.rooms r
            { room with currentVideo := some (mkUploadedVideo sock data now) } },
        [ { msg := Msg.videoLoaded (mkUploadedVideo sock data now),
            dest := socketTo st sock.id r } ]) := by
  obtain ⟨h1, h2, h3⟩ := h
  simp only [step, onSocket, h1, fileUploaded, h2, h3]

theorem step_videoLoaded_bound (st : State) (id : SocketId) (sock : Socket) (r : RoomId)
    (room : Room) (h : Bound st id sock r room) (info : JObj) (now : Nat) :
    step st (Event.videoLoaded id info now) =
      ({ st with
          rooms := mapSet st.rooms r
            { room with currentVideo := some (mkLoadedVideo sock info now) } },
        [ { msg := Msg.videoLoaded (mkLoadedVideo sock info now),
            dest := socketTo st sock.id r } ]) := by
  obtain ⟨h1, h2, h3⟩ := h
  simp only [step, onSocket, h1, videoLoaded, h2, h3]

theorem step_load_bound (st : State) (id : SocketId) (sock : Socket) (r : RoomId)
    (room : Room) (h : Bound st id sock r room) (l : VideoLoad) :
    (step st (l.event id)).1 =
      { st with
          rooms := mapSet st.rooms r
            { room with currentVideo := some (l.descriptor sock) } } := by
  cases l with
  | urlShared data now =>
    simp only [VideoLoad.event, VideoLoad.descriptor, step_videoUrlShared_bound st id sock r room h]
  | fileUploaded data now =>
    simp only [VideoLoad.event, VideoLoad.descriptor, step_fileUploaded_bound st id sock r room h]
  | videoLoaded info now =>
    simp only [VideoLoad.event, VideoLoad.descriptor, step_videoLoaded_bound st id sock r room h]

theorem playbackAfter_snoc (st : State) (r : RoomId) (prev : Option JObj)
    (as : List (SocketId × JObj × Nat)) (a : SocketId × JObj × Nat) :
    playbackAfter st r prev (as ++ [a]) =
      match actionOn st r a with
      | some v => some v
      | none => playbackAfter st r prev as := by
  cases h : actionOn st r a <;> simp [playbackAfter, List.filterMap_append, h]

/-- A `video-action` keeps the live sockets and changes at most the playback
state of a room. -/
theorem step_videoAction_frame (st st' : State) (r : RoomId) (room' : Room)
    (hs : st'.sockets = st.sockets) (hr : mapGet st'.rooms r = some room')
    (a : SocketId × JObj × Nat) :
    (step st' (Event.videoAction a.1 a.2.1 a.2.2)).1.sockets = st.sockets ∧
      mapGet (step st' (Event.videoAction a.1 a.2.1 a.2.2)).1.rooms r =
        some { room' with
          videoState :=
            match actionOn st r a with
            | some v => some v
            | none => room'.videoState } := by
  have hf := findSocket_congr st st' hs a.1
  cases hfind : findSocket st a.1 with
  | none =>
    rw [hfind] at hf
    simp only [step, onSocket, hf, actionOn, hfind]
    exact ⟨hs, hr⟩
  | some s =>
    rw [hfind] at hf
    by_cases hb : boundRoom s = some r
    · rw [step_videoAction_bound st' a.1 s r room' ⟨hf, hb, hr⟩]
      simp only [actionOn, hfind, if_pos hb]
      exact ⟨hs, mapGet_mapSet_self _ _ _⟩
    · simp only [step, onSocket, hf, actionOn, hfind, if_neg hb]
      have hsock : (videoAction st' s a.2.1 a.2.2).1.sockets = st.sockets := by
        unfold videoAction
        split
        · exact hs
        · split <;> exact hs
      refine ⟨hsock, ?_⟩
      unfold videoAction
      split
      · exact hr
      · next rid hrid =>
        split
        · exact hr
        · have hne : rid ≠ r := by
            intro hc
            rw [hc] at hrid
            exact hb hrid
          simp only
          rw [mapGet_mapSet_ne _ _ _ _ hne]
          exact hr

theorem run_actions_frame (st st' : State) (r : RoomId) (room' : Room)
    (hs : st'.sockets = st.sockets) (hr : mapGet st'.rooms r = some room')
    (actions : List (SocketId × JObj × Nat)) :
    (run st' (actionEvents actions)).sockets = st.sockets ∧
      mapGet (run st' (actionEvents actions)).rooms r =
        some { room' with videoState := playbackAfter st r room'.videoState actions } := by
  induction actions using List.reverseRecOn with
  | nil => exact ⟨hs, hr⟩
  | append_singleton as a ih =>
    have hrun : run st' (actionEvents (as ++ [a])) =
        (step (run st' (actionEvents as)) (Event.videoAction a.1 a.2.1 a.2.2)).1 := by
      simp [actionEvents, run_snoc]
    rw [hrun, playbackAfter_snoc]
    exact step_videoAction_frame st _ r _ ih.1 ih.2 a

/-- C2 as stated fails.  After a load, a play action and a second load the
playback state of the room is still that of the play action, not null; and
for a connection bound to the existing room whose id is the empty string two
loads are dropped by the guard, so the current video stays null. -/
theorem second_load_keeps_playback_state :
    (mapGet (run init demoTwoLoads).rooms "r").map Room.videoState =
        some (some [("action", JVal.str "play"), ("currentTime", JVal.num 5),
          ("timestamp", JVal.num 3), ("userId", JVal.str "A"), ("username", JVal.str "Alice")]) ∧
      (mapGet (run init demoTwoLoads).rooms "r").map Room.videoState ≠ some none ∧
      (findSocket (run init demoEmptyRoomId) "B" = some demoBobEmpty ∧
        demoBobEmpty.roomId = some "" ∧
        mapGet (run init demoEmptyRoomId).rooms "" = some demoRoomEmpty ∧
        (mapGet (run (run init demoEmptyRoomId)
            [ Event.videoUrlShared "B" [("url", JVal.str "u1")] 5,
              Event.videoUrlShared "B" [("url", JVal.str "u2")] 6 ]).rooms "").map
          Room.currentVideo = some none) := by
  decide

/-- C2 amended: for a connection bound to an existing room whose id is not
the empty string, after a video load `l1`, any playback actions of any
connections and a video load `l2` (each load by any of the three load
events), the current video of the room is exactly the descriptor built from
`l2` and the playback state is not reset: it is the state of the last
action in between that was written into this room, or the one before `l1`
when there was none.  The other fields of the room are unchanged. -/
theorem second_load_replaces_video (st : State) (id : SocketId) (sock : Socket) (r : RoomId)
    (room : Room) (h : Joined st id sock r room) (hne : r ≠ "") (l1 l2 : VideoLoad)
    (actions : List (SocketId × JObj × Nat)) :
    mapGet (run st (l1.event id :: actionEvents actions ++ [l2.event id])).rooms r =
      some { room with
        currentVideo := some (l2.descriptor sock)
        videoState := playbackAfter st r room.videoState actions } := by
  have hb := h.bound hne
  rw [run_snoc, run_cons, step_load_bound st id sock r room hb l1]
  have h1 := Bound.write st id sock r room
    { room with currentVideo := some (l1.descriptor sock) } hb
  obtain ⟨hs, hr⟩ := run_actions_frame st _ r _ (by rfl) h1.2.2 actions
  have hfind := findSocket_congr st _ hs id
  rw [hb.1] at hfind
  rw [step_load_bound _ id sock r _ ⟨hfind, hb.2.1, hr⟩ l2]
  exact mapGet_mapSet_self _ _ _

theorem second_load_replaces_video_witness :
    Joined (run init demoTwoInRoom) "A" demoAlice "r" demoRoom ∧ ("r" : RoomId) ≠ "" ∧
      mapGet (run (run init demoTwoInRoom)
        (VideoLoad.event "A" (VideoLoad.urlShared [("url", JVal.str "u1")] 3) ::
          actionEvents [("B", [("action", JVal.str "play")], 4), ("C", [], 5)] ++
          [VideoLoad.event "A" (VideoLoad.fileUploaded [("videoUrl", JVal.str "/uploads/f")] 6)])).rooms
        "r" =
      some { users := [("A", { username := "Alice", userId := "A", isHost := true }),
                       ("B", { username := "Bob", userId := "B", isHost := false })],
             videoState := some [("action", JVal.str "play"), ("timestamp", JVal.num 4),
               ("userId", JVal.str "B"), ("username", JVal.str "Bob")],
             currentVideo := some [("url", JVal.str "/uploads/f"), ("name", JVal.undefined),
               ("type", JVal.str "uploaded"), ("uploadedBy", JVal.str "Alice"),
               ("uploadedAt", JVal.num 6), ("size", JVal.undefined)],
             host := "A", createdAt := 1 } :=
  ⟨⟨by decide, by decide, by decide⟩, by decide,
    second_load_replaces_video (run init demoTwoInRoom) "A" demoAlice "r" demoRoom
      ⟨by decide, by decide, by decide⟩ (by decide)
      (VideoLoad.urlShared [("url", JVal.str "u1")] 3)
      (VideoLoad.fileUploaded [("videoUrl", JVal.str "/uploads/f")] 6)
      [("B", [("action", JVal.str "play")], 4), ("C", [], 5)]⟩

/-! ## The effect of one input on the live sockets -/

theorem joinRoom_sockets (st : State) (sock : Socket) (rid : RoomId) (username : String)
    (rnd now : Nat) :
    (joinRoom st sock rid username rnd now).1.sockets =
      st.sockets.map (fun s => if s.id = sock.id then joinedSocket sock rid username rnd else s) :=
  rfl

theorem videoAction_sockets (st : State) (sock : Socket) (data : JObj) (now : Nat) :
    (videoAction st sock data now).1.sockets = st.sockets ∧
      (videoAction st sock data now).1.closed = st.closed ∧
      (videoAction st sock data now).1.uploadedFiles = st.uploadedFiles := by
  unfold videoAction
  split
  · exact ⟨rfl, rfl, rfl⟩
  · split <;> exact ⟨rfl, rfl, rfl⟩

theorem videoLoaded_sockets (st : State) (sock : Socket) (data : JObj) (now : Nat) :
    (videoLoaded st sock data now).1.sockets = st.sockets ∧
      (videoLoaded st sock data now).1.closed = st.closed ∧
      (videoLoaded st sock data now).1.uploadedFiles = st.uploadedFiles := by
  unfold videoLoaded
  split
  · exact ⟨rfl, rfl, rfl⟩
  · split <;> exact ⟨rfl, rfl, rfl⟩

theorem fileUploaded_sockets (st : State) (sock : Socket) (data : JObj) (now : Nat) :
    (fileUploaded st sock data now).1.sockets = st.sockets ∧
      (fileUploaded st sock data now).1.closed = st.closed ∧
      (fileUploaded st sock data now).1.uploadedFiles = st.uploadedFiles := by
  unfold fileUploaded
  split
  · exact ⟨rfl, rfl, rfl⟩
  · split <;> exact ⟨rfl, rfl, rfl⟩

theorem videoUrlShared_sockets (st : State) (sock : Socket) (data : JObj) (now : Nat) :
    (videoUrlShared st sock data now).1.sockets = st.sockets ∧
      (videoUrlShared st sock data now).1.closed = st.closed ∧
      (videoUrlShared st sock data now).1.uploadedFiles = st.uploadedFiles := by
  unfold videoUrlShared
  split
  · exact ⟨rfl, rfl, rfl⟩
  · split <;> exact ⟨rfl, rfl, rfl⟩

theorem disconnect_sockets (st : State) (sock : Socket) :
    (disconnect st sock).1.sockets = st.sockets.filter (fun s => decide (s.id ≠ sock.id)) ∧
      (disconnect st sock).1.closed = sock.id :: st.closed := by
  unfold disconnect
  simp only
  split
  · exact ⟨rfl, rfl⟩
  · split
    · exact ⟨rfl, rfl⟩
    · split <;> exact ⟨rfl, rfl⟩

theorem upload_sockets (st : State) (file : Option UploadFile) (roomId username : String)
    (now : Nat) :
    (upload st file roomId username now).sockets = st.sockets ∧
      (upload st file roomId username now).closed = st.closed := by
  unfold upload
  split
  · exact ⟨rfl, rfl⟩
  · split
    · exact ⟨rfl, rfl⟩
    · split <;> exact ⟨rfl, rfl⟩

/-- The socket list and the closed ids after one input. -/
theorem step_sockets (st : State) (e : Event) :
    ((step st e).1.sockets = st.sockets ∧ (step st e).1.closed = st.closed) ∨
    (∃ id, e = Event.connect id ∧ id ∉ st.sockets.map Socket.id ∧ id ∉ st.closed ∧
      (step st e).1.sockets =
        st.sockets ++ [{ id := id, roomId := none, username := none, ioRooms := [] }] ∧
      (step st e).1.closed = st.closed) ∨
    (∃ id rid username rnd now sock, e = Event.joinRoom id rid username rnd now ∧
      findSocket st id = some sock ∧
      (step st e).1.sockets =
        st.sockets.map (fun s => if s.id = id then joinedSocket sock rid username rnd else s) ∧
      (step st e).1.closed = st.closed) ∨
    (∃ id sock, e = Event.disconnect id ∧ findSocket st id = some sock ∧
      (step st e).1.sockets = st.sockets.filter (fun s => decide (s.id ≠ id)) ∧
      (step st e).1.closed = id :: st.closed) := by
  cases e with
  | connect id =>
    by_cases hc : id ∈ st.sockets.map Socket.id ∨ id ∈ st.closed
    · left
      simp only [step, connect, if_pos hc, and_self]
    · right; left
      refine ⟨id, rfl, fun h => hc (Or.inl h), fun h => hc (Or.inr h), ?_, ?_⟩
      · simp only [step, connect, if_neg hc]
      · simp only [step, connect, if_neg hc]
  | joinRoom id rid username rnd now =>
    cases hs : findSocket st id with
    | none => left; simp only [step, onSocket, hs, and_self]
    | some sock =>
      right; right; left
      have hid := findSocket_id st id sock hs
      refine ⟨id, rid, username, rnd, now, sock, rfl, hs, ?_, ?_⟩
      · simp only [step, onSocket, hs, joinRoom_sockets, hid]
      · simp only [step, onSocket, hs]
        rfl
  | videoAction id data now =>
    left
    cases hs : findSocket st id with
    | none => simp only [step, onSocket, hs, and_self]
    | some sock =>
      simp only [step, onSocket, hs]
      exact ⟨(videoAction_sockets st sock data now).1, (videoAction_sockets st sock data now).2.1⟩
  | videoLoaded id data now =>
    left
    cases hs : findSocket st id with
    | none => simp only [step, onSocket, hs, and_self]
    | some sock =>
      simp only [step, onSocket, hs]
      exact ⟨(videoLoaded_sockets st sock data now).1, (videoLoaded_sockets st sock data now).2.1⟩
  | fileUploaded id data now =>
    left
    cases hs : findSocket st id with
    | none => simp only [step, onSocket, hs, and_self]
    | some sock =>
      simp only [step, onSocket, hs]
      exact ⟨(fileUploaded_sockets st sock data now).1, (fileUploaded_sockets st sock data now).2.1⟩
  | videoUrlShared id data now =>
    left
    cases hs : findSocket st id with
    | none => simp only [step, onSocket, hs, and_self]
    | some sock =>
      simp only [step, onSocket, hs]
      exact ⟨(videoUrlShared_sockets st sock data now).1,
        (videoUrlShared_sockets st sock data now).2.1⟩
  | chatMessage id message now =>
    left
    cases hs : findSocket st id with
    | none => simp only [step, onSocket, hs, and_self]
    | some sock => simp only [step, onSocket, hs, chatMessage_state, and_self]
  | disconnect id =>
    cases hs : findSocket st id with
    | none => left; simp only [step, onSocket, hs, and_self]
    | some sock =>
      right; right; right
      have hid := findSocket_id st id sock hs
      refine ⟨id, sock, rfl, hs, ?_, ?_⟩
      · simp only [step, onSocket, hs, (disconnect_sockets st sock).1, hid]
      · simp only [step, onSocket, hs, (disconnect_sockets st sock).2, hid]
  | upload file roomId username now =>
    left
    simp only [step]
    exact upload_sockets st file roomId username now
  | sweep now =>
    left
    exact ⟨rfl, rfl⟩

theorem joinedSocket_inv (sock : Socket) (rid : RoomId) (username : String) (rnd : Nat)
    (r : RoomId) (h : (joinedSocket sock rid username rnd).roomId = some r) :
    r ∈ (joinedSocket sock rid username rnd).ioRooms ∧
      ∃ name, (joinedSocket sock rid username rnd).username = some name := by
  simp only [joinedSocket, Option.some.injEq] at h
  subst h
  refine ⟨?_, chooseName username rnd, rfl⟩
  simp only [joinedSocket]
  split
  · assumption
  · simp

theorem sockInv_step (st : State) (e : Event) (hinv : SockInv st) : SockInv (step st e).1 := by
  intro s hs r hr
  rcases step_sockets st e with ⟨h1, _⟩ | ⟨id, _, _, _, h1, _⟩ |
    ⟨id, rid, username, rnd, now, sock, _, _, h1, _⟩ | ⟨id, sock, _, _, h1, _⟩
  · rw [h1] at hs
    exact hinv s hs r hr
  · rw [h1, List.mem_append] at hs
    rcases hs with hs | hs
    · exact hinv s hs r hr
    · simp only [List.mem_singleton] at hs
      subst hs
      simp at hr
  · rw [h1, List.mem_map] at hs
    obtain ⟨s0, hs0, rfl⟩ := hs
    by_cases hc : s0.id = id
    · rw [if_pos hc] at hr ⊢
      exact joinedSocket_inv sock rid username rnd r hr
    · rw [if_neg hc] at hr ⊢
      exact hinv s0 hs0 r hr
  · rw [h1] at hs
    exact hinv s (List.mem_of_mem_filter hs) r hr

theorem sockInv_run (evs : List Event) : SockInv (run init evs) :=
  run_invariant SockInv (by intro s hs; simp [init] at hs) sockInv_step evs

theorem joinedSocket_id (sock : Socket) (rid : RoomId) (username : String) (rnd : Nat) :
    (joinedSocket sock rid username rnd).id = sock.id := rfl

theorem liveInv_step (st : State) (e : Event) (hinv : LiveInv st) : LiveInv (step st e).1 := by
  obtain ⟨huniq, hclosed⟩ := hinv
  rcases step_sockets st e with ⟨h1, h2⟩ | ⟨id, _, hfresh, hnc, h1, h2⟩ |
    ⟨id, rid, username, rnd, now, sock, _, hfind, h1, h2⟩ | ⟨id, sock, _, _, h1, h2⟩
  · rw [LiveInv, h1, h2]
    exact ⟨huniq, hclosed⟩
  · rw [LiveInv, h1, h2]
    constructor
    · intro t ht t' ht' hid
      rw [List.mem_append, List.mem_singleton] at ht ht'
      rcases ht with ht | ht <;> rcases ht' with ht' | ht'
      · exact huniq t ht t' ht' hid
      · subst ht'
        exact absurd (List.mem_map.2 ⟨t, ht, hid⟩) hfresh
      · subst ht
        exact absurd (List.mem_map.2 ⟨t', ht', hid.symm⟩) hfresh
      · rw [ht, ht']
    · intro t ht
      rw [List.mem_append, List.mem_singleton] at ht
      rcases ht with ht | ht
      · exact hclosed t ht
      · subst ht
        exact hnc
  · have hsid := findSocket_id st id sock hfind
    have hfid : ∀ a : Socket,
        (if a.id = id then joinedSocket sock rid username rnd else a).id = a.id := by
      intro a
      by_cases hc : a.id = id
      · rw [if_pos hc, joinedSocket_id, hsid, hc]
      · rw [if_neg hc]
    rw [LiveInv, h1, h2]
    constructor
    · intro t ht t' ht' hid
      rw [List.mem_map] at ht ht'
      obtain ⟨a, ha, rfl⟩ := ht
      obtain ⟨b, hb, rfl⟩ := ht'
      rw [hfid a, hfid b] at hid
      rw [huniq a ha b hb hid]
    · intro t ht
      rw [List.mem_map] at ht
      obtain ⟨a, ha, rfl⟩ := ht
      rw [hfid a]
      exact hclosed a ha
  · rw [LiveInv, h1, h2]
    constructor
    · intro t ht t' ht' hid
      exact huniq t (List.mem_of_mem_filter ht) t' (List.mem_of_mem_filter ht') hid
    · intro t ht
      have hne : t.id ≠ id := by simpa using (List.mem_filter.1 ht).2
      rw [List.mem_cons]
      rintro (h | h)
      · exact hne h
      · exact hclosed t (List.mem_of_mem_filter ht) h

theorem liveInv_run (evs : List Event) : LiveInv (run init evs) :=
  run_invariant LiveInv ⟨by intro t ht; simp [init] at ht, by intro t ht; simp [init] at ht⟩
    liveInv_step evs

theorem mem_joinedSocket_ioRooms (sock : Socket) (rid : RoomId) (username : String) (rnd : Nat)
    (r : RoomId) (h : r ∈ sock.ioRooms ∨ r = rid) :
    r ∈ (joinedSocket sock rid username rnd).ioRooms := by
  simp only [joinedSocket]
  split
  · next hin =>
    rcases h with h | h
    · exact h
    · rw [h]
      exact hin
  · rw [List.mem_append, List.mem_singleton]
    exact h

theorem closedOrIn_step (st : State) (e : Event) (hlive : LiveInv st) (k : SocketId)
    (r : RoomId) (h : ClosedOrIn st k r) : ClosedOrIn (step st e).1 k r := by
  rcases step_sockets st e with ⟨h1, h2⟩ | ⟨id, _, _, _, h1, h2⟩ |
    ⟨id, rid, username, rnd, now, sock, _, hfind, h1, h2⟩ | ⟨id, sock, _, _, h1, h2⟩
  · rw [ClosedOrIn, h1, h2]
    exact h
  · rw [ClosedOrIn, h1, h2]
    rcases h with h | ⟨t, ht, hk, hr⟩
    · exact Or.inl h
    · exact Or.inr ⟨t, List.mem_append_left _ ht, hk, hr⟩
  · rw [ClosedOrIn, h1, h2]
    rcases h with h | ⟨t, ht, hk, hr⟩
    · exact Or.inl h
    · right
      refine ⟨_, List.mem_map.2 ⟨t, ht, rfl⟩, ?_, ?_⟩
      · by_cases hc : t.id = id
        · rw [if_pos hc, joinedSocket_id, findSocket_id st id sock hfind, ← hc, hk]
        · rw [if_neg hc, hk]
      · by_cases hc : t.id = id
        · rw [if_pos hc]
          have hts : t = sock :=
            hlive.1 t ht sock (findSocket_mem st id sock hfind)
              (by rw [hc, findSocket_id st id sock hfind])
          subst hts
          exact mem_joinedSocket_ioRooms _ _ _ _ _ (Or.inl hr)
        · rw [if_neg hc]
          exact hr
  · rw [ClosedOrIn, h1, h2]
    rcases h with h | ⟨t, ht, hk, hr⟩
    · exact Or.inl (List.mem_cons_of_mem _ h)
    · by_cases hc : t.id = id
      · left
        rw [← hk, hc]
        exact List.mem_cons_self _ _
      · right
        exact ⟨t, List.mem_filter.2 ⟨ht, by simpa using hc⟩, hk, hr⟩

theorem joiner_closedOrIn (st : State) (id : SocketId) (r : RoomId) (username : String)
    (rnd now : Nat) (sock : Socket) (hfind : findSocket st id = some sock) :
    ClosedOrIn (step st (Event.joinRoom id r username rnd now)).1 id r := by
  right
  refine ⟨joinedSocket sock r username rnd, ?_, ?_, ?_⟩
  · simp only [step, onSocket, hfind, joinRoom_sockets]
    refine List.mem_map.2 ⟨sock, findSocket_mem st id sock hfind, ?_⟩
    simp
  · rw [joinedSocket_id, findSocket_id st id sock hfind]
  · exact mem_joinedSocket_ioRooms _ _ _ _ _ (Or.inr rfl)

theorem memInv_step (st : State) (e : Event) (hlive : LiveInv st) (hinv : MemInv st) :
    MemInv (step st e).1 := by
  intro r room' k h hk
  rcases step_rooms st e r room' h with ⟨old, h1, hu, _⟩ |
    ⟨id, username, rnd, now, base, he, ⟨sock, hfind⟩, hbase, rfl⟩ |
    ⟨id, sock, room, _, _, _, hroom, _, rfl⟩
  · rw [hu] at hk
    exact closedOrIn_step st e hlive k r (hinv r old k h1 hk)
  · simp only [joinedRoom, mem_mapKeys_mapSet] at hk
    rcases hk with hk | hk
    · subst hk he
      exact joiner_closedOrIn st k r username rnd now sock hfind
    · rcases hbase with hb | ⟨_, hb⟩
      · exact closedOrIn_step st e hlive k r (hinv r base k hb hk)
      · subst hb
        simp [freshRoom, mapKeys] at hk
  · simp only [leftRoom, mem_mapKeys_mapDelete] at hk
    exact closedOrIn_step st _ hlive k r (hinv r room k hroom hk.2)

theorem liveMemInv_run (evs : List Event) : LiveInv (run init evs) ∧ MemInv (run init evs) :=
  run_invariant (fun st => LiveInv st ∧ MemInv st)
    ⟨(liveInv_run []), by intro r room k h; simp [init, mapGet] at h⟩
    (fun st e h => ⟨liveInv_step st e h.1, memInv_step st e h.1 h.2⟩) evs

/-- In a reachable state a live connection that is bound to room `r`, or is
a key of the participant map of room `r`, is among the recipients of
`io.to(r)`. -/
theorem mem_ioTo_of_reachable (evs : List Event) (r : RoomId) (t : Socket)
    (ht : t ∈ (run init evs).sockets)
    (h : boundRoom t = some r ∨
      ∃ room, mapGet (run init evs).rooms r = some room ∧ t.id ∈ mapKeys room.users) :
    t.id ∈ ioTo (run init evs) r := by
  have hjoined : r ∈ t.ioRooms := by
    rcases h with h | ⟨room, hroom, hk⟩
    · have hr : t.roomId = some r := by
        unfold boundRoom at h
        split at h
        · cases h
        · next r' hr' =>
          split at h
          · cases h
          · rw [hr']
            exact h
      exact (sockInv_run evs t ht r hr).1
    · obtain ⟨hlive, hmem⟩ := liveMemInv_run evs
      rcases hmem r room t.id hroom hk with hc | ⟨t', ht', hid, hr⟩
      · exact absurd hc (hlive.2 t ht)
      · rw [hlive.1 t ht t' ht' hid.symm]
        exact hr
  unfold ioTo
  refine List.mem_map.2 ⟨t, List.mem_filter.2 ⟨ht, ?_⟩, rfl⟩
  simp [inIoRoom, hjoined]

/-! ## Playback actions and shared URLs -/

theorem field_mapSet_self (o : JObj) (k : String) (v : JVal) : field (mapSet o k v) k = v := by
  simp [field, mapGet_mapSet_self]

theorem field_mapSet_ne (o : JObj) (k k' : String) (v : JVal) (h : k ≠ k') :
    field (mapSet o k v) k' = field o k' := by
  simp [field, mapGet_mapSet_ne _ _ _ _ h]

theorem Bound.mem {st : State} {id : SocketId} {sock : Socket} {r : RoomId} {room : Room}
    (h : Bound st id sock r room) : sock ∈ st.sockets ∧ sock.id = id :=
  ⟨findSocket_mem st id sock h.1, findSocket_id st id sock h.1⟩

theorem Bound.roomId {st : State} {id : SocketId} {sock : Socket} {r : RoomId} {room : Room}
    (h : Bound st id sock r room) : sock.roomId = some r := by
  have hb := h.2.1
  unfold boundRoom at hb
  split at hb
  · cases hb
  · next r' hr' =>
    split at hb
    · cases hb
    · rw [hr']
      exact hb

/-- C3 as stated fails: Bob is bound to the existing room whose id is the
empty string (live, `socket.roomId` is that id, a key of its participant
map, Alice being the other participant); his `video-action` is dropped by
the guard: the playback state of the room stays null and no `video-sync` is
emitted. -/
theorem video_action_dropped_in_empty_id_room :
    Joined (run init demoEmptyRoomId) "B" demoBobEmpty "" demoRoomEmpty ∧
      "B" ∈ mapKeys demoRoomEmpty.users ∧ "A" ∈ mapKeys demoRoomEmpty.users ∧
      (findSocket (run init demoEmptyRoomId) "A").isSome = true ∧
      step (run init demoEmptyRoomId)
          (Event.videoAction "B" [("action", JVal.str "play"), ("currentTime", JVal.num 5)] 7) =
        (run init demoEmptyRoomId, []) ∧
      (mapGet (run init demoEmptyRoomId).rooms "").map Room.videoState = some none :=
  ⟨⟨by decide, by decide, by decide⟩, by decide, by decide, by decide, by decide, by decide⟩

/-- C3 amended: a `video-action` from a connection bound to an existing room
whose id is not the empty string, in a reachable state, overwrites the
playback state of the room with the payload stamped with the time, the
sender's connection id and display name; exactly one `video-sync` carrying
that state is emitted; it is not delivered to the sender and it is
delivered to every other live connection that is bound to the room or is a
key of its participant map. -/
theorem video_action_syncs_others (evs : List Event) (id : SocketId) (sock : Socket)
    (r : RoomId) (room : Room) (h : Joined (run init evs) id sock r room) (hr : r ≠ "")
    (data : JObj) (now : Nat) :
    mapGet (step (run init evs) (Event.videoAction id data now)).1.rooms r =
        some { room with videoState := some (mkVideoState sock data now) } ∧
      (field (mkVideoState sock data now) "userId" = JVal.str id ∧
        (∃ name, sock.username = some name ∧
          field (mkVideoState sock data now) "username" = JVal.str name) ∧
        field (mkVideoState sock data now) "timestamp" = JVal.num now ∧
        ∀ k, k ≠ "timestamp" → k ≠ "userId" → k ≠ "username" →
          field (mkVideoState sock data now) k = field data k) ∧
      (step (run init evs) (Event.videoAction id data now)).2 =
        [ { msg := Msg.videoSync (mkVideoState sock data now),
            dest := socketTo (run init evs) id r } ] ∧
      id ∉ socketTo (run init evs) id r ∧
      ∀ t ∈ (run init evs).sockets, t.id ≠ id →
        (t.roomId = some r ∨ t.id ∈ mapKeys room.users) →
        t.id ∈ socketTo (run init evs) id r := by
  have h := h.bound hr
  obtain ⟨hmem, hid⟩ := h.mem
  obtain ⟨_, name, hname⟩ := sockInv_run evs sock hmem r h.roomId
  rw [step_videoAction_bound _ id sock r room h]
  refine ⟨mapGet_mapSet_self _ _ _, ⟨?_, ⟨name, hname, ?_⟩, ?_, ?_⟩, ?_, ?_, ?_⟩
  · rw [mkVideoState, field_mapSet_ne _ _ _ _ (by decide), field_mapSet_self, hid]
  · rw [mkVideoState, field_mapSet_self, hname]
    rfl
  · rw [mkVideoState, field_mapSet_ne _ _ _ _ (by decide), field_mapSet_ne _ _ _ _ (by decide),
      field_mapSet_self]
  · intro k h1 h2 h3
    rw [mkVideoState, field_mapSet_ne _ _ _ _ (Ne.symm h3), field_mapSet_ne _ _ _ _ (Ne.symm h2),
      field_mapSet_ne _ _ _ _ (Ne.symm h1)]
  · rw [hid]
  · simp [socketTo]
  · intro t ht hne hin
    have hio : t.id ∈ ioTo (run init evs) r := by
      refine mem_ioTo_of_reachable evs r t ht ?_
      rcases hin with hin | hin
      · exact Or.inl (boundRoom_of_roomId t r hin hr)
      · exact Or.inr ⟨room, h.2.2, hin⟩
    exact List.mem_filter.2 ⟨hio, by simpa using hne⟩

theorem video_action_syncs_others_witness :
    Joined (run init demoTwoInRoom) "B" demoBob "r" demoRoom ∧ ("r" : RoomId) ≠ "" ∧
      (step (run init demoTwoInRoom)
          (Event.videoAction "B" [("action", JVal.str "play"), ("currentTime", JVal.num 5)] 7)).2 =
        [ { msg := Msg.videoSync
              [("action", JVal.str "play"), ("currentTime", JVal.num 5),
                ("timestamp", JVal.num 7), ("userId", JVal.str "B"),
                ("username", JVal.str "Bob")],
            dest := ["A"] } ] :=
  ⟨⟨by decide, by decide, by decide⟩, by decide,
    (video_action_syncs_others demoTwoInRoom "B" demoBob "r" demoRoom
      ⟨by decide, by decide, by decide⟩ (by decide)
      [("action", JVal.str "play"), ("currentTime", JVal.num 5)] 7).2.2.1⟩

/-- C4 as stated fails: Bob is bound to the existing room whose id is the
empty string; his `video-url-shared` is dropped by the guard: the current
video of the room stays null and no `video-loaded` is emitted, neither to
Alice nor to Bob. -/
theorem url_shared_dropped_in_empty_id_room :
    Joined (run init demoEmptyRoomId) "B" demoBobEmpty "" demoRoomEmpty ∧
      "B" ∈ mapKeys demoRoomEmpty.users ∧
      step (run init demoEmptyRoomId)
          (Event.videoUrlShared "B"
            [("url", JVal.str "u"), ("name", JVal.str "n"), ("originalUrl", JVal.str "u")] 7) =
        (run init demoEmptyRoomId, []) ∧
      (mapGet (run init demoEmptyRoomId).rooms "").map Room.currentVideo = some none :=
  ⟨⟨by decide, by decide, by decide⟩, by decide, by decide, by decide⟩

/-- C4 amended: a `video-url-shared` from a connection bound to an existing
room whose id is not the empty string, in a reachable state, makes the
current video of the room the descriptor built from the payload's `url`,
`name` and `originalUrl`, the time and the sender's display name and
connection id; exactly one `video-loaded` carrying that descriptor is
emitted; it is delivered to the sender and to every live connection that is
bound to the room or is a key of its participant map. -/
theorem url_shared_echoes_to_all (evs : List Event) (id : SocketId) (sock : Socket)
    (r : RoomId) (room : Room) (h : Joined (run init evs) id sock r room) (hr : r ≠ "")
    (data : JObj) (now : Nat) :
    mapGet (step (run init evs) (Event.videoUrlShared id data now)).1.rooms r =
        some { room with currentVideo := some (mkSharedVideo sock data now) } ∧
      (∃ name, sock.username = some name ∧
        mkSharedVideo sock data now =
          [ ("url", field data "url"), ("name", field data "name"), ("type", JVal.str "url"),
            ("originalUrl", field data "originalUrl"), ("loadedBy", JVal.str name),
            ("loadedAt", JVal.num now), ("userId", JVal.str id) ]) ∧
      (step (run init evs) (Event.videoUrlShared id data now)).2 =
        [ { msg := Msg.videoLoaded (mkSharedVideo sock data now),
            dest := ioTo (run init evs) r } ] ∧
      id ∈ ioTo (run init evs) r ∧
      ∀ t ∈ (run init evs).sockets,
        (t.roomId = some r ∨ t.id ∈ mapKeys room.users) → t.id ∈ ioTo (run init evs) r := by
  have h := h.bound hr
  obtain ⟨hmem, hid⟩ := h.mem
  obtain ⟨_, name, hname⟩ := sockInv_run evs sock hmem r h.roomId
  rw [step_videoUrlShared_bound _ id sock r room h]
  refine ⟨mapGet_mapSet_self _ _ _, ⟨name, hname, ?_⟩, rfl, ?_, ?_⟩
  · rw [mkSharedVideo, hname, hid]
    rfl
  · rw [← hid]
    exact mem_ioTo_of_reachable evs r sock hmem (Or.inl h.2.1)
  · intro t ht hin
    refine mem_ioTo_of_reachable evs r t ht ?_
    rcases hin with hin | hin
    · exact Or.inl (boundRoom_of_roomId t r hin hr)
    · exact Or.inr ⟨room, h.2.2, hin⟩

theorem url_shared_echoes_to_all_witness :
    Joined (run init demoTwoInRoom) "B" demoBob "r" demoRoom ∧ ("r" : RoomId) ≠ "" ∧
      (step (run init demoTwoInRoom)
          (Event.videoUrlShared "B" [("url", JVal.str "u"), ("name", JVal.str "n")] 7)).2 =
        [ { msg := Msg.videoLoaded
              [("url", JVal.str "u"), ("name", JVal.str "n"), ("type", JVal.str "url"),
                ("originalUrl", JVal.undefined), ("loadedBy", JVal.str "Bob"),
                ("loadedAt", JVal.num 7), ("userId", JVal.str "B")],
            dest := ["A", "B"] } ] :=
  ⟨⟨by decide, by decide, by decide⟩, by decide,
    (url_shared_echoes_to_all demoTwoInRoom "B" demoBob "r" demoRoom
      ⟨by decide, by decide, by decide⟩ (by decide)
      [("url", JVal.str "u"), ("name", JVal.str "n")] 7).2.2.1⟩

/-! ## The uploaded-file table -/

theorem mapKeys_mapSet {κ α : Type} [DecidableEq κ] (m : List (κ × α)) (k : κ) (v : α) :
    mapKeys (mapSet m k v) = if k ∈ mapKeys m then mapKeys m else mapKeys m ++ [k] := by
  induction m with
  | nil => simp [mapSet, mapKeys]
  | cons e t ih =>
    obtain ⟨k₀, v₀⟩ := e
    have ih' : List.map Prod.fst (mapSet t k v) =
        if k ∈ List.map Prod.fst t then List.map Prod.fst t else List.map Prod.fst t ++ [k] := ih
    by_cases h : k₀ = k
    · subst h
      simp [mapSet, mapKeys]
    · have h' : ¬ k = k₀ := fun e => h e.symm
      simp only [mapSet, mapKeys, h, if_false, List.map_cons, List.mem_cons, h', false_or, ih']
      split <;> simp

theorem nodup_mapKeys_mapSet {κ α : Type} [DecidableEq κ] (m : List (κ × α)) (k : κ) (v : α)
    (h : (mapKeys m).Nodup) : (mapKeys (mapSet m k v)).Nodup := by
  rw [mapKeys_mapSet]
  split
  · exact h
  · next hk =>
    rw [List.nodup_append]
    refine ⟨h, List.nodup_singleton k, ?_⟩
    intro a ha hb
    rw [List.mem_singleton] at hb
    subst hb
    exact hk ha

theorem nodup_mapKeys_filter {κ α : Type} (m : List (κ × α)) (p : κ × α → Bool)
    (h : (mapKeys m).Nodup) : (mapKeys (m.filter p)).Nodup :=
  List.Nodup.sublist (List.Sublist.map _ (List.filter_sublist m)) h

theorem nodup_mapKeys_mapDelete {κ α : Type} [DecidableEq κ] (m : List (κ × α)) (k : κ)
    (h : (mapKeys m).Nodup) : (mapKeys (mapDelete m k)).Nodup :=
  nodup_mapKeys_filter m _ h

/-- Deleting a list of keys one after the other keeps the entries whose key
is not in the list. -/
theorem foldl_mapDelete {κ α : Type} [DecidableEq κ] (ks : List κ) (m : List (κ × α)) :
    ks.foldl mapDelete m = m.filter (fun e => decide (e.1 ∉ ks)) := by
  induction ks generalizing m with
  | nil => simp
  | cons k t ih =>
    rw [List.foldl_cons, ih, mapDelete, List.filter_filter]
    congr 1
    funext e
    simp only [List.mem_cons, not_or, ne_eq, decide_not, Bool.decide_and]
    rw [Bool.and_comm]

theorem cleanupRoomFiles_eq (files : List (String × FileInfo)) (r : RoomId) :
    cleanupRoomFiles files r =
      files.filter (fun e => decide (e.1 ∉ filesToDelete files r)) := by
  unfold cleanupRoomFiles
  exact foldl_mapDelete _ _

theorem nodup_cleanupRoomFiles (files : List (String × FileInfo)) (r : RoomId)
    (h : (mapKeys files).Nodup) : (mapKeys (cleanupRoomFiles files r)).Nodup := by
  rw [cleanupRoomFiles_eq]
  exact nodup_mapKeys_filter _ _ h

/-- No record of the room is left by `cleanupRoomFiles`. -/
theorem cleanupRoomFiles_removes (files : List (String × FileInfo)) (r : RoomId)
    (e : String × FileInfo) (he : e ∈ cleanupRoomFiles files r) : e.2.roomId ≠ r := by
  rw [cleanupRoomFiles_eq, List.mem_filter] at he
  obtain ⟨hmem, hnot⟩ := he
  intro hr
  have : e.1 ∈ filesToDelete files r :=
    List.mem_map.2 ⟨e, List.mem_filter.2 ⟨hmem, by simpa using hr⟩, rfl⟩
  simp [this] at hnot

theorem mapGet_filter_of_key {κ α : Type} [DecidableEq κ] (m : List (κ × α))
    (p : κ × α → Bool) (k : κ) (h : ∀ e ∈ m, e.1 = k → p e = true) :
    mapGet (m.filter p) k = mapGet m k := by
  induction m with
  | nil => rfl
  | cons e t ih =>
    obtain ⟨k₀, v₀⟩ := e
    have iht := ih (fun e he hk => h e (List.mem_cons_of_mem _ he) hk)
    by_cases hk : k₀ = k
    · have hp : p (k₀, v₀) = true := h (k₀, v₀) (List.mem_cons_self _ _) hk
      rw [List.filter_cons, if_pos hp]
      simp [mapGet, hk]
    · cases hp : p (k₀, v₀)
      · simp [List.filter_cons, hp, mapGet, hk, iht]
      · simp [List.filter_cons, hp, mapGet, hk, iht]

theorem mapGet_unique {κ α : Type} [DecidableEq κ] (m : List (κ × α)) (k : κ) (v v' : α)
    (hnd : (mapKeys m).Nodup) (hget : mapGet m k = some v) (hmem : (k, v') ∈ m) : v' = v := by
  induction m with
  | nil => simp at hmem
  | cons e t ih =>
    obtain ⟨k₀, v₀⟩ := e
    simp only [mapKeys, List.map_cons, List.nodup_cons] at hnd
    by_cases hk : k₀ = k
    · subst hk
      simp only [mapGet, if_true, Option.some.injEq] at hget
      rcases List.mem_cons.1 hmem with h | h
      · cases h
        exact hget
      · exact absurd (List.mem_map.2 ⟨(k₀, v'), h, rfl⟩) hnd.1
    · simp only [mapGet, hk, if_false] at hget
      rcases List.mem_cons.1 hmem with h | h
      · cases h
        exact absurd rfl hk
      · exact ih hnd.2 hget h

/-- A record of another room survives `cleanupRoomFiles` unchanged. -/
theorem cleanupRoomFiles_keeps (files : List (String × FileInfo)) (r : RoomId)
    (hnd : (mapKeys files).Nodup) (f : String) (info : FileInfo)
    (hget : mapGet files f = some info) (hr : info.roomId ≠ r) :
    mapGet (cleanupRoomFiles files r) f = some info := by
  rw [cleanupRoomFiles_eq, mapGet_filter_of_key _ _ f, hget]
  intro e he hk
  have hnot : e.1 ∉ filesToDelete files r := by
    intro hin
    obtain ⟨e', he', hfst⟩ := List.mem_map.1 hin
    rw [List.mem_filter] at he'
    have hroom : e'.2.roomId = r := by simpa using he'.2
    have : e'.2 = info := by
      refine mapGet_unique files f info e'.2 hnd hget ?_
      have : (f, e'.2) = e' := by
        rw [← hk, ← hfst]
      rw [this]
      exact he'.1
    rw [this] at hroom
    exact hr hroom
  simpa using hnot

theorem nodup_sweepRoom_fold (now : Nat) (visit : List (RoomId × Room))
    (acc : List (RoomId × Room) × List (String × FileInfo)) (h : (mapKeys acc.2).Nodup) :
    (mapKeys (visit.foldl (sweepRoom now) acc).2).Nodup := by
  induction visit generalizing acc with
  | nil => simpa using h
  | cons e t ih =>
    rw [List.foldl_cons]
    apply ih
    unfold sweepRoom
    split
    · exact nodup_cleanupRoomFiles _ _ h
    · exact h

theorem nodup_sweepFile_fold (now : Nat) (rooms : List (RoomId × Room))
    (visit acc : List (String × FileInfo)) (h : (mapKeys acc).Nodup) :
    (mapKeys (visit.foldl (sweepFile now rooms) acc)).Nodup := by
  induction visit generalizing acc with
  | nil => simpa using h
  | cons e t ih =>
    rw [List.foldl_cons]
    apply ih
    unfold sweepFile
    split
    · exact nodup_mapKeys_mapDelete _ _ h
    · exact h

theorem filesInv_step (st : State) (e : Event) (hinv : FilesInv st) : FilesInv (step st e).1 := by
  unfold FilesInv at *
  cases e with
  | connect id =>
    simp only [step, connect]
    split <;> exact hinv
  | joinRoom id rid username rnd now =>
    simp only [step, onSocket]
    split
    · exact hinv
    · exact hinv
  | videoAction id data now =>
    simp only [step, onSocket]
    split
    · exact hinv
    · rw [(videoAction_sockets _ _ _ _).2.2]
      exact hinv
  | videoLoaded id data now =>
    simp only [step, onSocket]
    split
    · exact hinv
    · rw [(videoLoaded_sockets _ _ _ _).2.2]
      exact hinv
  | fileUploaded id data now =>
    simp only [step, onSocket]
    split
    · exact hinv
    · rw [(fileUploaded_sockets _ _ _ _).2.2]
      exact hinv
  | videoUrlShared id data now =>
    simp only [step, onSocket]
    split
    · exact hinv
    · rw [(videoUrlShared_sockets _ _ _ _).2.2]
      exact hinv
  | chatMessage id message now =>
    simp only [step, onSocket]
    split
    · exact hinv
    · rw [chatMessage_state]
      exact hinv
  | disconnect id =>
    simp only [step, onSocket]
    split
    · exact hinv
    · unfold disconnect
      simp only
      split
      · exact hinv
      · split
        · exact hinv
        · split
          · exact nodup_cleanupRoomFiles _ _ hinv
          · exact hinv
  | upload file roomId username now =>
    simp only [step, upload]
    split
    · exact hinv
    · split
      · exact hinv
      · split
        · exact hinv
        · exact nodup_mapKeys_mapSet _ _ _ hinv
  | sweep now =>
    simp only [step, sweep]
    exact nodup_sweepFile_fold _ _ _ _ (nodup_sweepRoom_fold _ _ _ hinv)

theorem filesInv_run (evs : List Event) : FilesInv (run init evs) :=
  run_invariant FilesInv (by simp [FilesInv, init, mapKeys]) filesInv_step evs

/-! ## The last participant leaves -/

theorem mapDelete_only {α : Type} (users : List (SocketId × α)) (id : SocketId)
    (h : mapKeys users = [id]) : mapDelete users id = [] := by
  cases users with
  | nil => rfl
  | cons e t =>
    simp only [mapKeys, List.map_cons, List.cons.injEq, List.map_eq_nil_iff] at h
    obtain ⟨h1, h2⟩ := h
    subst h2
    simp [mapDelete, h1]

/-- The state after the disconnect of the only participant of its room. -/
theorem step_disconnect_last (st : State) (id : SocketId) (sock : Socket) (r : RoomId)
    (room : Room) (h : Bound st id sock r room) (honly : mapKeys room.users = [id]) :
    (step st (Event.disconnect id)).1 =
      { rooms := mapDelete st.rooms r
        uploadedFiles := cleanupRoomFiles st.uploadedFiles r
        sockets := st.sockets.filter (fun s => decide (s.id ≠ id))
        closed := id :: st.closed } := by
  obtain ⟨h1, h2, h3⟩ := h
  have hid := findSocket_id st id sock h1
  have hdel : mapDelete room.users id = [] := mapDelete_only _ _ honly
  simp only [step, onSocket, h1, disconnect, h2, h3, hid, hdel, List.length_nil, if_true]

/-- C5 as stated fails: Alice is the only participant of the room whose id
is the empty string and is bound to it; after her disconnect the guard has
skipped the clean-up, the room is still in the registry and she is still a
key of its participant map. -/
theorem lone_participant_of_empty_id_room_stays :
    Joined (run init demoAloneEmptyRoomId) "A"
        { id := "A", roomId := some "", username := some "Alice", ioRooms := [""] } ""
        { users := [("A", { username := "Alice", userId := "A", isHost := true })],
          videoState := none, currentVideo := none, host := "A", createdAt := 1 } ∧
      (mapGet (run init demoAloneEmptyRoomId).rooms "").map (fun room => mapKeys room.users) =
        some ["A"] ∧
      (findSocket (step (run init demoAloneEmptyRoomId) (Event.disconnect "A")).1 "A").isSome =
        false ∧
      mapHas (step (run init demoAloneEmptyRoomId) (Event.disconnect "A")).1.rooms "" = true ∧
      (mapGet (step (run init demoAloneEmptyRoomId) (Event.disconnect "A")).1.rooms "").map
          (fun room => mapKeys room.users) = some ["A"] :=
  ⟨⟨by decide, by decide, by decide⟩, by decide, by decide, by decide, by decide⟩

/-- C5 amended: when the only participant of a room `r` whose id is not the
empty string disconnects while bound to `r`, in a reachable state, then
afterwards `r` is not in the registry, the uploaded-file table holds no
record whose `roomId` is `r`, and every record of another room is still
there unchanged. -/
theorem last_leave_deletes_room_and_files (evs : List Event) (id : SocketId) (sock : Socket)
    (r : RoomId) (room : Room) (h : Joined (run init evs) id sock r room) (hr : r ≠ "")
    (honly : mapKeys room.users = [id]) :
    mapGet (step (run init evs) (Event.disconnect id)).1.rooms r = none ∧
      mapHas (step (run init evs) (Event.disconnect id)).1.rooms r = false ∧
      (∀ e ∈ (step (run init evs) (Event.disconnect id)).1.uploadedFiles, e.2.roomId ≠ r) ∧
      ∀ f info, mapGet (run init evs).uploadedFiles f = some info → info.roomId ≠ r →
        mapGet (step (run init evs) (Event.disconnect id)).1.uploadedFiles f = some info := by
  rw [step_disconnect_last _ id sock r room (h.bound hr) honly]
  refine ⟨mapGet_mapDelete_self _ _, ?_, ?_, ?_⟩
  · simp [mapHas, mapGet_mapDelete_self]
  · intro e he
    exact cleanupRoomFiles_removes _ r e he
  · intro f info hget hroom
    exact cleanupRoomFiles_keeps _ r (filesInv_run evs) f info hget hroom

theorem last_leave_deletes_room_and_files_witness :
    Joined (run init demoUploads) "A"
        { id := "A", roomId := some "r", username := some "Alice", ioRooms := ["r"] } "r"
        { users := [("A", { username := "Alice", userId := "A", isHost := true })],
          videoState := none, currentVideo := none, host := "A", createdAt := 3 } ∧
      ("r" : RoomId) ≠ "" ∧
      (step (run init demoUploads) (Event.disconnect "A")).1.rooms = [] ∧
      (step (run init demoUploads) (Event.disconnect "A")).1.uploadedFiles =
        [("f2.mp4", ⟨"f2.mp4", "b.mp4", 20, "video/mp4", "Quinn", 2, "q"⟩)] ∧
      mapGet (step (run init demoUploads) (Event.disconnect "A")).1.rooms "r" = none :=
  ⟨⟨by decide, by decide, by decide⟩, by decide, by decide, by decide,
    (last_leave_deletes_room_and_files demoUploads "A"
      { id := "A", roomId := some "r", username := some "Alice", ioRooms := ["r"] } "r"
      { users := [("A", { username := "Alice", userId := "A", isHost := true })],
        videoState := none, currentVideo := none, host := "A", createdAt := 3 }
      ⟨by decide, by decide, by decide⟩ (by decide) (by decide)).1⟩

/-! ## When the host changes -/

/-- The registry after a bound participant leaves and others remain. -/
theorem step_disconnect_others (st : State) (id : SocketId) (sock : Socket) (r : RoomId)
    (room : Room) (h : Bound st id sock r room) (hne : mapDelete room.users id ≠ []) :
    (step st (Event.disconnect id)).1.rooms = mapSet st.rooms r (leftRoom id room) := by
  obtain ⟨h1, h2, h3⟩ := h
  have hid := findSocket_id st id sock h1
  have hlen : ¬ (mapDelete room.users id).length = 0 := by
    intro hl
    exact hne (List.length_eq_zero.1 hl)
  simp only [step, onSocket, h1, disconnect, h2, h3, hid, if_neg hlen]
  rfl

theorem leftRoom_host_ne (id : SocketId) (room : Room) (hhost : room.host = id)
    (hne : mapDelete room.users id ≠ []) : (leftRoom id room).host ≠ room.host := by
  have hlen : (mapDelete room.users id).length ≠ 0 := fun hl => hne (List.length_eq_zero.1 hl)
  have hmem := leftRoom_host_mem_of_host id room hhost hlen
  intro heq
  rw [heq, hhost] at hmem
  exact ((mem_mapKeys_mapDelete _ _ _).1 hmem).1 rfl

/-- C6 as stated fails.  In a reachable state the connection of the host of
room `r1` disconnects while Bob remains in `r1`, and the host of `r1` does
not change, because the connection had sent `join-room` for `r2` afterwards;
the same happens in the room whose id is the empty string. -/
theorem host_leaves_without_host_change :
    ((mapGet (run init demoRejoin).rooms "r1").map Room.host = some "A" ∧
      (findSocket (run init demoRejoin) "A").isSome = true ∧
      (findSocket (step (run init demoRejoin) (Event.disconnect "A")).1 "A").isSome = false ∧
      (mapGet (step (run init demoRejoin) (Event.disconnect "A")).1.rooms "r1").map
          (fun room => decide ("B" ∈ mapKeys room.users)) = some true ∧
      (mapGet (step (run init demoRejoin) (Event.disconnect "A")).1.rooms "r1").map Room.host =
        some "A") ∧
    ((mapGet (run init demoEmptyRoomId).rooms "").map Room.host = some "A" ∧
      (findSocket (run init demoEmptyRoomId) "A").isSome = true ∧
      (mapGet (step (run init demoEmptyRoomId) (Event.disconnect "A")).1.rooms "").map
          (fun room => decide ("B" ∈ mapKeys room.users)) = some true ∧
      (mapGet (step (run init demoEmptyRoomId) (Event.disconnect "A")).1.rooms "").map Room.host =
        some "A") := by
  decide

/-- C6 amended: for every state, every input and every room that is in the
registry before and after the input, the host after differs from the host
before if and only if the input is the disconnect of a live connection whose
`socket.roomId` is this room (and not the empty string), that connection is
the host of the room, and another participant remains; the new host is then
a key of the participant map that remains. -/
theorem host_changes_iff_bound_host_leaves (st : State) (e : Event) (r : RoomId)
    (room room' : Room) (hb : mapGet st.rooms r = some room)
    (ha : mapGet (step st e).1.rooms r = some room') :
    (room'.host ≠ room.host ↔
      ∃ id sock, e = Event.disconnect id ∧ findSocket st id = some sock ∧
        boundRoom sock = some r ∧ room.host = id ∧ mapDelete room.users id ≠ []) ∧
    (room'.host ≠ room.host →
      room'.host ∈ mapKeys room'.users ∧ room'.users = mapDelete room.users room.host) := by
  have hfwd : room'.host ≠ room.host →
      (∃ id sock, e = Event.disconnect id ∧ findSocket st id = some sock ∧
        boundRoom sock = some r ∧ room.host = id ∧ mapDelete room.users id ≠ []) ∧
      room'.host ∈ mapKeys room'.users ∧ room'.users = mapDelete room.users room.host := by
    intro hchange
    rcases step_rooms st e r room' ha with ⟨old, h1, _, hh⟩ |
      ⟨id, username, rnd, now, base, _, _, hbase, hroom'⟩ |
      ⟨id, sock, room0, he, hfind, hbound, hroom0, hlen, hroom'⟩
    · rw [hb] at h1
      cases h1
      exact absurd hh hchange
    · rcases hbase with hbase | ⟨hnone, _⟩
      · rw [hb] at hbase
        cases hbase
        rw [hroom'] at hchange
        exact absurd rfl hchange
      · rw [hb] at hnone
        cases hnone
    · rw [hb] at hroom0
      cases hroom0
      have hhost : room.host = id := by
        by_contra hcon
        apply hchange
        rw [hroom', leftRoom]
        simp only
        rw [if_neg (fun c => hcon c.1)]
        rfl
      have hne : mapDelete room.users id ≠ [] := fun hnil => hlen (by rw [hnil]; rfl)
      refine ⟨⟨id, sock, he, hfind, hbound, hhost, hne⟩, ?_, ?_⟩
      · rw [hroom']
        exact leftRoom_host_mem_of_host id room hhost hlen
      · rw [hroom', hhost]
        rfl
  refine ⟨⟨fun hchange => (hfwd hchange).1, ?_⟩, fun hchange => (hfwd hchange).2⟩
  rintro ⟨id, sock, he, hfind, hbound, hhost, hne⟩
  subst he
  have hrooms := step_disconnect_others st id sock r room ⟨hfind, hbound, hb⟩ hne
  rw [hrooms, mapGet_mapSet_self] at ha
  cases ha
  exact leftRoom_host_ne id room hhost hne

theorem host_changes_iff_bound_host_leaves_witness :
    mapGet (run init demoTwoInRoom).rooms "r" = some demoRoom ∧
      mapGet (step (run init demoTwoInRoom) (Event.disconnect "A")).1.rooms "r" =
        some { demoRoom with
          users := [("B", { username := "Bob", userId := "B", isHost := false })]
          host := "B" } ∧
      ((("B" : SocketId) ≠ demoRoom.host) ↔
        ∃ id sock, Event.disconnect "A" = Event.disconnect id ∧
          findSocket (run init demoTwoInRoom) id = some sock ∧
          boundRoom sock = some "r" ∧ demoRoom.host = id ∧ mapDelete demoRoom.users id ≠ []) :=
  ⟨by decide, by decide,
    (host_changes_iff_bound_host_leaves (run init demoTwoInRoom) (Event.disconnect "A") "r"
      demoRoom
      { demoRoom with
        users := [("B", { username := "Bob", userId := "B", isHost := false })]
        host := "B" }
      (by decide) (by decide)).1⟩

/-! ## Connections and the rooms they joined -/

theorem joinsOf_snoc (id : SocketId) (evs : List Event) (e : Event) :
    joinsOf id (evs ++ [e]) = joinsOf id evs ++ (joinOf id e).toList := by
  unfold joinsOf
  rw [List.filterMap_append]
  cases h : joinOf id e <;> simp [List.filterMap_cons, h]

theorem mem_joinsOf_snoc (id : SocketId) (evs : List Event) (e : Event) (r : RoomId)
    (h : r ∈ joinsOf id evs) : r ∈ joinsOf id (evs ++ [e]) := by
  rw [joinsOf_snoc]
  exact List.mem_append_left _ h

theorem mem_joinsOf_join (id : SocketId) (evs : List Event) (r : RoomId) (username : String)
    (rnd now : Nat) : r ∈ joinsOf id (evs ++ [Event.joinRoom id r username rnd now]) := by
  rw [joinsOf_snoc]
  simp [joinOf]

/-- A key of the participant map of room `r` is a connection that has sent
`join-room` for `r`. -/
theorem participant_has_joined (evs : List Event) (r : RoomId) (room : Room) (k : SocketId)
    (hroom : mapGet (run init evs).rooms r = some room) (hk : k ∈ mapKeys room.users) :
    r ∈ joinsOf k evs := by
  induction evs using List.reverseRecOn generalizing room with
  | nil => simp [run_nil, init, mapGet] at hroom
  | append_singleton evs e ih =>
    rw [run_snoc] at hroom
    rcases step_rooms _ e r room hroom with ⟨old, h1, hu, _⟩ |
      ⟨id, username, rnd, now, base, he, _, hbase, rfl⟩ |
      ⟨id, sock, room0, _, _, _, hroom0, _, rfl⟩
    · rw [hu] at hk
      exact mem_joinsOf_snoc _ _ _ _ (ih old h1 hk)
    · simp only [joinedRoom, mem_mapKeys_mapSet] at hk
      rcases hk with hk | hk
      · subst hk he
        exact mem_joinsOf_join _ _ _ _ _ _
      · rcases hbase with hb | ⟨_, hb⟩
        · exact mem_joinsOf_snoc _ _ _ _ (ih base hb hk)
        · subst hb
          simp [freshRoom, mapKeys] at hk
    · simp only [leftRoom, mem_mapKeys_mapDelete] at hk
      exact mem_joinsOf_snoc _ _ _ _ (ih room0 hroom0 hk.2)

/-- The `socket.roomId` of a live connection is a room id it has sent
`join-room` for. -/
theorem roomId_has_joined (evs : List Event) (s : Socket) (hs : s ∈ (run init evs).sockets)
    (r : RoomId) (hr : s.roomId = some r) : r ∈ joinsOf s.id evs := by
  induction evs using List.reverseRecOn generalizing s with
  | nil => simp [run_nil, init] at hs
  | append_singleton evs e ih =>
    rw [run_snoc] at hs
    rcases step_sockets (run init evs) e with ⟨h1, _⟩ | ⟨id, _, _, _, h1, _⟩ |
      ⟨id, rid, username, rnd, now, sock, he, hfind, h1, _⟩ | ⟨id, sock, _, _, h1, _⟩
    · rw [h1] at hs
      exact mem_joinsOf_snoc _ _ _ _ (ih s hs hr)
    · rw [h1, List.mem_append, List.mem_singleton] at hs
      rcases hs with hs | hs
      · exact mem_joinsOf_snoc _ _ _ _ (ih s hs hr)
      · subst hs
        simp at hr
    · rw [h1, List.mem_map] at hs
      obtain ⟨a, ha, rfl⟩ := hs
      by_cases hc : a.id = id
      · rw [if_pos hc] at hr ⊢
        simp only [joinedSocket, Option.some.injEq] at hr
        subst hr he
        rw [joinedSocket_id, findSocket_id _ id sock hfind]
        exact mem_joinsOf_join _ _ _ _ _ _
      · rw [if_neg hc] at hr ⊢
        exact mem_joinsOf_snoc _ _ _ _ (ih a ha hr)
    · rw [h1] at hs
      exact mem_joinsOf_snoc _ _ _ _ (ih s (List.mem_of_mem_filter hs) hr)

/-- C7 as stated fails: after one connection sends `join-room` for `r1` and
then for `r2`, its id is a key of the participant maps of both rooms. -/
theorem connection_in_two_rooms :
    (mapGet (run init demoRejoin).rooms "r1").map
        (fun room => decide ("A" ∈ mapKeys room.users)) = some true ∧
      (mapGet (run init demoRejoin).rooms "r2").map
        (fun room => decide ("A" ∈ mapKeys room.users)) = some true ∧
      ("r1" : RoomId) ≠ "r2" := by
  decide

/-- C7 amended: in every reachable state, a connection all of whose
`join-room` events name the same room id (in particular a connection that
sent `join-room` at most once) is a key of the participant map of at most
one room of the registry. -/
theorem single_join_single_room (evs : List Event) (k : SocketId)
    (honce : ∀ a ∈ joinsOf k evs, ∀ b ∈ joinsOf k evs, a = b) (r₁ r₂ : RoomId)
    (room₁ room₂ : Room) (h₁ : mapGet (run init evs).rooms r₁ = some room₁)
    (hk₁ : k ∈ mapKeys room₁.users) (h₂ : mapGet (run init evs).rooms r₂ = some room₂)
    (hk₂ : k ∈ mapKeys room₂.users) : r₁ = r₂ :=
  honce r₁ (participant_has_joined evs r₁ room₁ k h₁ hk₁) r₂
    (participant_has_joined evs r₂ room₂ k h₂ hk₂)

theorem single_join_single_room_witness :
    (∀ a ∈ joinsOf "B" demoRejoin, ∀ b ∈ joinsOf "B" demoRejoin, a = b) ∧
      ∀ r₂ room₂, mapGet (run init demoRejoin).rooms r₂ = some room₂ →
        "B" ∈ mapKeys room₂.users → "r1" = r₂ :=
  ⟨by decide, fun r₂ room₂ h₂ hk₂ =>
    single_join_single_room demoRejoin "B" (by decide) "r1" r₂
      { users := [("A", { username := "Alice", userId := "A", isHost := true }),
                  ("B", { username := "Bob", userId := "B", isHost := false })],
        videoState := none, currentVideo := none, host := "A", createdAt := 1 }
      room₂ (by decide) (by decide) h₂ hk₂⟩

/-! ## The stored host flag -/

/-- C8 fails on the code: after Alice (host) and Bob join room `r` and Alice
disconnects, the host of `r` is Bob while the stored `isHost` flag of Bob is
still false; the snapshot sent to the next joiner carries the stale flag. -/
theorem promoted_host_flag_is_stale :
    mapGet (run init demoHostLeaves).rooms "r" =
        some { users := [("B", { username := "Bob", userId := "B", isHost := false })],
               videoState := none, currentVideo := none, host := "B", createdAt := 1 } ∧
      (step (run init demoHostLeaves) (Event.connect "C")).2 = [] ∧
      (step (step (run init demoHostLeaves) (Event.connect "C")).1
          (Event.joinRoom "C" "r" "Carol" 0 9)).2.head? =
        some { msg := Msg.roomState
                 [ { username := "Bob", userId := "B", isHost := false },
                   { username := "Carol", userId := "C", isHost := false } ] none none,
               dest := ["C"] } := by
  decide

/-! ## Joining a room that does not exist -/

/-- C9: when a live connection sends `join-room` for a room id that is not
in the registry, the room exists afterwards with the joiner as host, the
joiner (host flag true) as its only participant and no current video or
playback state; the first event emitted is the `room-state` snapshot with
those values, sent to the joiner alone, followed by `user-joined` to the
others and `user-count-update` with count one. -/
theorem join_creates_room (st : State) (id : SocketId) (sock : Socket) (r : RoomId)
    (username : String) (rnd now : Nat) (hfind : findSocket st id = some sock)
    (hnew : mapHas st.rooms r = false) :
    mapGet (step st (Event.joinRoom id r username rnd now)).1.rooms r =
        some { users := [(id, { username := chooseName username rnd, userId := id,
                                isHost := true })],
               videoState := none, currentVideo := none, host := id, createdAt := now } ∧
      (step st (Event.joinRoom id r username rnd now)).2 =
        [ { msg := Msg.roomState
              [{ username := chooseName username rnd, userId := id, isHost := true }] none none,
            dest := [id] },
          { msg := Msg.userJoined (chooseName username rnd) id,
            dest := socketTo (step st (Event.joinRoom id r username rnd now)).1 id r },
          { msg := Msg.userCountUpdate 1,
            dest := ioTo (step st (Event.joinRoom id r username rnd now)).1 r } ] := by
  have hid := findSocket_id st id sock hfind
  have hnone : mapGet st.rooms r = none := by
    cases hg : mapGet st.rooms r with
    | none => rfl
    | some x => simp [mapHas, hg] at hnew
  constructor
  · simp only [step, onSocket, hfind, joinRoom, hnone, mapGet_mapSet_self, hid]
    simp [freshRoom, mapSet]
  · simp only [step, onSocket, hfind, joinRoom, hnone, hid]
    simp [freshRoom, mapSet, mapValues]

theorem join_creates_room_witness :
    findSocket (run init [Event.connect "A"]) "A" =
        some { id := "A", roomId := none, username := none, ioRooms := [] } ∧
      mapHas (run init [Event.connect "A"]).rooms "r" = false ∧
      mapGet (step (run init [Event.connect "A"]) (Event.joinRoom "A" "r" "" 7 5)).1.rooms "r" =
        some { users := [("A", { username := chooseName "" 7, userId := "A", isHost := true })],
               videoState := none, currentVideo := none, host := "A", createdAt := 5 } :=
  ⟨by decide, by decide,
    (join_creates_room (run init [Event.connect "A"]) "A"
      { id := "A", roomId := none, username := none, ioRooms := [] } "r" "" 7 5
      (by decide) (by decide)).1⟩

/-! ## Events before `join-room` -/

theorem boundRoom_none_of_roomId (sock : Socket) (h : sock.roomId = none) :
    boundRoom sock = none := by
  simp [boundRoom, h]

/-- A connection that has not sent `join-room` is not live or has
`socket.roomId` undefined. -/
theorem unjoined_socket (evs : List Event) (id : SocketId) (h : joinsOf id evs = [])
    (sock : Socket) (hfind : findSocket (run init evs) id = some sock) :
    boundRoom sock = none := by
  apply boundRoom_none_of_roomId
  cases hr : sock.roomId with
  | none => rfl
  | some r =>
    have := roomId_has_joined evs sock (findSocket_mem _ id sock hfind) r hr
    rw [findSocket_id _ id sock hfind, h] at this
    simp at this

/-- C10: for a connection that has not sent `join-room`, each of
`video-action`, `video-loaded`, `file-uploaded`, `video-url-shared` and
`chat-message`, with any payload, leaves the whole state (room registry and
uploaded-file table included) unchanged and emits nothing. -/
theorem events_before_join_are_noops (evs : List Event) (id : SocketId)
    (h : joinsOf id evs = []) (data : JObj) (message : String) (now : Nat) :
    step (run init evs) (Event.videoAction id data now) = (run init evs, []) ∧
      step (run init evs) (Event.videoLoaded id data now) = (run init evs, []) ∧
      step (run init evs) (Event.fileUploaded id data now) = (run init evs, []) ∧
      step (run init evs) (Event.videoUrlShared id data now) = (run init evs, []) ∧
      step (run init evs) (Event.chatMessage id message now) = (run init evs, []) := by
  cases hfind : findSocket (run init evs) id with
  | none => simp only [step, onSocket, hfind, and_self]
  | some sock =>
    have hb := unjoined_socket evs id h sock hfind
    simp only [step, onSocket, hfind, videoAction, videoLoaded, fileUploaded, videoUrlShared,
      chatMessage, hb, and_self]

theorem events_before_join_are_noops_witness :
    joinsOf "B" [Event.connect "A", Event.connect "B", Event.joinRoom "A" "r" "Alice" 0 1] = [] ∧
      step (run init [Event.connect "A", Event.connect "B", Event.joinRoom "A" "r" "Alice" 0 1])
          (Event.chatMessage "B" "hello" 2) =
        (run init [Event.connect "A", Event.connect "B", Event.joinRoom "A" "r" "Alice" 0 1],
          []) :=
  ⟨by decide,
    (events_before_join_are_noops
      [Event.connect "A", Event.connect "B", Event.joinRoom "A" "r" "Alice" 0 1] "B"
      (by decide) [] "hello" 2).2.2.2.2⟩

/-! ## No room is empty -/

theorem videoAction_rooms_shape (st : State) (sock : Socket) (data : JObj) (now : Nat) :
    (videoAction st sock data now).1.rooms = st.rooms ∨
      ∃ r room, (videoAction st sock data now).1.rooms = mapSet st.rooms r room := by
  unfold videoAction
  split
  · exact Or.inl rfl
  · split
    · exact Or.inl rfl
    · exact Or.inr ⟨_, _, rfl⟩

theorem videoLoaded_rooms_shape (st : State) (sock : Socket) (data : JObj) (now : Nat) :
    (videoLoaded st sock data now).1.rooms = st.rooms ∨
      ∃ r room, (videoLoaded st sock data now).1.rooms = mapSet st.rooms r room := by
  unfold videoLoaded
  split
  · exact Or.inl rfl
  · split
    · exact Or.inl rfl
    · exact Or.inr ⟨_, _, rfl⟩

theorem fileUploaded_rooms_shape (st : State) (sock : Socket) (data : JObj) (now : Nat) :
    (fileUploaded st sock data now).1.rooms = st.rooms ∨
      ∃ r room, (fileUploaded st sock data now).1.rooms = mapSet st.rooms r room := by
  unfold fileUploaded
  split
  · exact Or.inl rfl
  · split
    · exact Or.inl rfl
    · exact Or.inr ⟨_, _, rfl⟩

theorem videoUrlShared_rooms_shape (st : State) (sock : Socket) (data : JObj) (now : Nat) :
    (videoUrlShared st sock data now).1.rooms = st.rooms ∨
      ∃ r room, (videoUrlShared st sock data now).1.rooms = mapSet st.rooms r room := by
  unfold videoUrlShared
  split
  · exact Or.inl rfl
  · split
    · exact Or.inl rfl
    · exact Or.inr ⟨_, _, rfl⟩

theorem disconnect_rooms_shape (st : State) (sock : Socket) :
    (disconnect st sock).1.rooms = st.rooms ∨
      (∃ r room, (disconnect st sock).1.rooms = mapSet st.rooms r room) ∨
      ∃ r, (disconnect st sock).1.rooms = mapDelete st.rooms r := by
  unfold disconnect
  simp only
  split
  · exact Or.inl rfl
  · split
    · exact Or.inl rfl
    · split
      · exact Or.inr (Or.inr ⟨_, rfl⟩)
      · exact Or.inr (Or.inl ⟨_, _, rfl⟩)

theorem nodup_sweepRoom_fold_rooms (now : Nat) (visit : List (RoomId × Room))
    (acc : List (RoomId × Room) × List (String × FileInfo)) (h : (mapKeys acc.1).Nodup) :
    (mapKeys (visit.foldl (sweepRoom now) acc).1).Nodup := by
  induction visit generalizing acc with
  | nil => simpa using h
  | cons e t ih =>
    rw [List.foldl_cons]
    apply ih
    unfold sweepRoom
    split
    · exact nodup_mapKeys_mapDelete _ _ h
    · exact h

/-- The registry after one input, as an operation on the registry before. -/
theorem step_rooms_shape (st : State) (e : Event) :
    (step st e).1.rooms = st.rooms ∨
      (∃ r room, (step st e).1.rooms = mapSet st.rooms r room) ∨
      (∃ r, (step st e).1.rooms = mapDelete st.rooms r) ∨
      ∃ now, (step st e).1.rooms = (sweep st now).rooms := by
  cases e with
  | connect id =>
    left
    simp only [step, connect]
    split <;> rfl
  | joinRoom id rid username rnd now =>
    simp only [step, onSocket]
    split
    · exact Or.inl rfl
    · exact Or.inr (Or.inl ⟨_, _, rfl⟩)
  | videoAction id data now =>
    simp only [step, onSocket]
    split
    · exact Or.inl rfl
    · next sock _ =>
      rcases videoAction_rooms_shape st sock data now with h | h
      · exact Or.inl h
      · exact Or.inr (Or.inl h)
  | videoLoaded id data now =>
    simp only [step, onSocket]
    split
    · exact Or.inl rfl
    · next sock _ =>
      rcases videoLoaded_rooms_shape st sock data now with h | h
      · exact Or.inl h
      · exact Or.inr (Or.inl h)
  | fileUploaded id data now =>
    simp only [step, onSocket]
    split
    · exact Or.inl rfl
    · next sock _ =>
      rcases fileUploaded_rooms_shape st sock data now with h | h
      · exact Or.inl h
      · exact Or.inr (Or.inl h)
  | videoUrlShared id data now =>
    simp only [step, onSocket]
    split
    · exact Or.inl rfl
    · next sock _ =>
      rcases videoUrlShared_rooms_shape st sock data now with h | h
      · exact Or.inl h
      · exact Or.inr (Or.inl h)
  | chatMessage id message now =>
    left
    simp only [step, onSocket]
    split
    · rfl
    · rw [chatMessage_state]
  | disconnect id =>
    simp only [step, onSocket]
    split
    · exact Or.inl rfl
    · next sock _ =>
      rcases disconnect_rooms_shape st sock with h | h | h
      · exact Or.inl h
      · exact Or.inr (Or.inl h)
      · exact Or.inr (Or.inr (Or.inl h))
  | upload file roomId username now =>
    left
    simp only [step, upload_rooms]
  | sweep now => exact Or.inr (Or.inr (Or.inr ⟨now, rfl⟩))

theorem roomsInv_step (st : State) (e : Event) (hinv : RoomsInv st) : RoomsInv (step st e).1 := by
  unfold RoomsInv at *
  rcases step_rooms_shape st e with h | ⟨r, room, h⟩ | ⟨r, h⟩ | ⟨now, h⟩
  · rw [h]
    exact hinv
  · rw [h]
    exact nodup_mapKeys_mapSet _ _ _ hinv
  · rw [h]
    exact nodup_mapKeys_mapDelete _ _ hinv
  · rw [h]
    exact nodup_sweepRoom_fold_rooms now st.rooms (st.rooms, st.uploadedFiles) hinv

theorem roomsInv_run (evs : List Event) : RoomsInv (run init evs) :=
  run_invariant RoomsInv (by simp [RoomsInv, init, mapKeys]) roomsInv_step evs

theorem mapGet_of_mem {κ α : Type} [DecidableEq κ] (m : List (κ × α)) (k : κ) (v : α)
    (hnd : (mapKeys m).Nodup) (hmem : (k, v) ∈ m) : mapGet m k = some v := by
  induction m with
  | nil => simp at hmem
  | cons e t ih =>
    obtain ⟨k₀, v₀⟩ := e
    simp only [mapKeys, List.map_cons, List.nodup_cons] at hnd
    rcases List.mem_cons.1 hmem with h | h
    · cases h
      simp [mapGet]
    · have hne : k₀ ≠ k := by
        intro hk
        subst hk
        exact hnd.1 (List.mem_map.2 ⟨(k₀, v), h, rfl⟩)
      simp only [mapGet, hne, if_false]
      exact ih hnd.2 h

/-- In a reachable state every entry of the registry has a participant. -/
theorem room_entry_nonempty (evs : List Event) (entry : RoomId × Room)
    (h : entry ∈ (run init evs).rooms) : entry.2.users ≠ [] := by
  have hget := mapGet_of_mem _ entry.1 entry.2 (roomsInv_run evs) h
  have hhost := hostInv_run evs entry.1 entry.2 hget
  intro hnil
  rw [hnil] at hhost
  simp [mapKeys] at hhost

/-- The first loop of the timer changes nothing when every room it visits
has a participant. -/
theorem sweepRoom_fold_id (now : Nat) (visit : List (RoomId × Room))
    (acc : List (RoomId × Room) × List (String × FileInfo))
    (h : ∀ entry ∈ visit, entry.2.users ≠ []) : visit.foldl (sweepRoom now) acc = acc := by
  induction visit generalizing acc with
  | nil => rfl
  | cons e t ih =>
    have he : e.2.users ≠ [] := h e (List.mem_cons_self _ _)
    have hstep : sweepRoom now acc e = acc := by
      unfold sweepRoom
      rw [if_neg]
      rintro ⟨hlen, _⟩
      exact he (List.length_eq_zero.1 hlen)
    rw [List.foldl_cons, hstep]
    exact ih acc (fun entry hentry => h entry (List.mem_cons_of_mem _ hentry))

theorem sweepRoom_fold_reachable (evs : List Event) (now : Nat) :
    (run init evs).rooms.foldl (sweepRoom now)
        ((run init evs).rooms, (run init evs).uploadedFiles) =
      ((run init evs).rooms, (run init evs).uploadedFiles) :=
  sweepRoom_fold_id now _ _ (fun entry h => room_entry_nonempty evs entry h)

/-- C13: in every reachable state no room of the registry has an empty
participant map, whether the room is looked up by its id or met as an entry
of the registry; so the room-expiry loop of the periodic sweep leaves the
registry and the uploaded-file table as they are, and after the sweep the
registry is the one before it. -/
theorem no_empty_room_and_sweep_keeps_rooms (evs : List Event) :
    (∀ r room, mapGet (run init evs).rooms r = some room → room.users ≠ []) ∧
      (∀ entry ∈ (run init evs).rooms, entry.2.users ≠ []) ∧
      ∀ now,
        (run init evs).rooms.foldl (sweepRoom now)
            ((run init evs).rooms, (run init evs).uploadedFiles) =
          ((run init evs).rooms, (run init evs).uploadedFiles) ∧
        (step (run init evs) (Event.sweep now)).1.rooms = (run init evs).rooms := by
  refine ⟨?_, fun entry h => room_entry_nonempty evs entry h, fun now => ⟨?_, ?_⟩⟩
  · intro r room hget hnil
    have hhost := hostInv_run evs r room hget
    rw [hnil] at hhost
    simp [mapKeys] at hhost
  · exact sweepRoom_fold_reachable evs now
  · simp only [step, sweep, sweepRoom_fold_reachable evs now]

/-! ## The orphan sweep -/

theorem isExpiredOrphan_iff (now : Nat) (rooms : List (RoomId × Room)) (info : FileInfo) :
    isExpiredOrphan now rooms info = true ↔
      ((now : Int) - (info.uploadedAt : Int) > maxAge ∧ mapHas rooms info.roomId = false) := by
  simp [isExpiredOrphan]

theorem sweepFile_eq (now : Nat) (rooms : List (RoomId × Room)) (files : List (String × FileInfo))
    (entry : String × FileInfo) :
    sweepFile now rooms files entry =
      if isExpiredOrphan now rooms entry.2 = true then mapDelete files entry.1 else files := by
  unfold sweepFile
  by_cases h : isExpiredOrphan now rooms entry.2 = true
  · rw [if_pos h, if_pos ((isExpiredOrphan_iff _ _ _).1 h)]
  · rw [if_neg h, if_neg (fun c => h ((isExpiredOrphan_iff _ _ _).2 c))]

/-- The second loop of the timer deletes the file names of the expired
orphans it visits. -/
theorem sweepFile_fold (now : Nat) (rooms : List (RoomId × Room))
    (visit acc : List (String × FileInfo)) :
    visit.foldl (sweepFile now rooms) acc =
      acc.filter (fun e => decide (e.1 ∉ expiredKeys now rooms visit)) := by
  have h : visit.foldl (sweepFile now rooms) acc =
      (expiredKeys now rooms visit).foldl mapDelete acc := by
    induction visit generalizing acc with
    | nil => rfl
    | cons e t ih =>
      rw [List.foldl_cons, ih, sweepFile_eq]
      by_cases hc : isExpiredOrphan now rooms e.2 = true
      · simp [expiredKeys, List.filter_cons, hc]
      · simp [expiredKeys, List.filter_cons, hc]
  rw [h, foldl_mapDelete]

theorem eq_of_mem_of_key_eq {κ α : Type} (m : List (κ × α)) (hnd : (mapKeys m).Nodup)
    (a b : κ × α) (ha : a ∈ m) (hb : b ∈ m) (hk : a.1 = b.1) : a = b :=
  List.inj_on_of_nodup_map hnd ha hb hk

/-- With pairwise different file names, deleting the names of the expired
orphans removes exactly the expired orphans. -/
theorem filter_expiredKeys (now : Nat) (rooms : List (RoomId × Room))
    (files : List (String × FileInfo)) (hnd : (mapKeys files).Nodup) :
    files.filter (fun e => decide (e.1 ∉ expiredKeys now rooms files)) =
      files.filter (fun e => !isExpiredOrphan now rooms e.2) := by
  apply List.filter_congr
  intro e he
  by_cases hc : isExpiredOrphan now rooms e.2 = true
  · have hin : e.1 ∈ expiredKeys now rooms files :=
      List.mem_map.2 ⟨e, List.mem_filter.2 ⟨he, hc⟩, rfl⟩
    simp [hin, hc]
  · have hnot : e.1 ∉ expiredKeys now rooms files := by
      intro hin
      obtain ⟨e', he', hk⟩ := List.mem_map.1 hin
      rw [List.mem_filter] at he'
      have : e' = e := eq_of_mem_of_key_eq files hnd e' e he'.1 he hk
      rw [this] at he'
      exact hc he'.2
    simp only [Bool.not_eq_true] at hc
    simp [hnot, hc]

/-- The periodic sweep in a reachable state: the registry is kept and the
uploaded-file table loses exactly its expired orphans. -/
theorem sweep_reachable (evs : List Event) (now : Nat) :
    sweep (run init evs) now =
      { run init evs with
        uploadedFiles := (run init evs).uploadedFiles.filter
          (fun e => !isExpiredOrphan now (run init evs).rooms e.2) } := by
  simp only [sweep, sweepRoom_fold_reachable evs now, sweepFile_fold]
  rw [filter_expiredKeys now _ _ (filesInv_run evs)]

theorem mapGet_filter_iff {κ α : Type} [DecidableEq κ] (m : List (κ × α))
    (p : κ × α → Bool) (hnd : (mapKeys m).Nodup) (k : κ) (v : α) :
    mapGet (m.filter p) k = some v ↔ mapGet m k = some v ∧ p (k, v) = true := by
  constructor
  · intro h
    have hmem := List.mem_filter.1 (mapGet_mem _ _ _ h)
    exact ⟨mapGet_of_mem m k v hnd hmem.1, hmem.2⟩
  · rintro ⟨h, hp⟩
    exact mapGet_of_mem _ k v (nodup_mapKeys_filter m p hnd)
      (List.mem_filter.2 ⟨mapGet_mem _ _ _ h, hp⟩)

/-- Running the periodic sweep again at the same time changes nothing. -/
theorem sweep_sweep_reachable (evs : List Event) (now : Nat) :
    sweep (sweep (run init evs) now) now = sweep (run init evs) now := by
  have hrun : sweep (run init evs) now = run init (evs ++ [Event.sweep now]) := by
    rw [run_snoc]
    rfl
  have h2 := sweep_reachable (evs ++ [Event.sweep now]) now
  rw [← hrun] at h2
  rw [h2, sweep_reachable evs now]
  simp only [List.filter_filter, Bool.and_self]

/-- C12: one run of the periodic sweep at time `now`, in a reachable state,
removes from the uploaded-file table exactly the records older than the
24-hour retention age whose room is not in the registry: the table
afterwards is the table before without those records, every other record is
found unchanged under its file name, a removed record is no longer found,
the registry is untouched and nothing is emitted; a second run at the same
time leaves the whole state as it is. -/
theorem orphan_sweep_exact_and_idempotent (evs : List Event) (now : Nat) :
    (step (run init evs) (Event.sweep now)).1.uploadedFiles =
        (run init evs).uploadedFiles.filter
          (fun e => !isExpiredOrphan now (run init evs).rooms e.2) ∧
      (∀ f info, mapGet (step (run init evs) (Event.sweep now)).1.uploadedFiles f = some info ↔
        mapGet (run init evs).uploadedFiles f = some info ∧
          ¬ ((now : Int) - (info.uploadedAt : Int) > 24 * 60 * 60 * 1000 ∧
            mapHas (run init evs).rooms info.roomId = false)) ∧
      (∀ f info, mapGet (run init evs).uploadedFiles f = some info →
        (now : Int) - (info.uploadedAt : Int) > 24 * 60 * 60 * 1000 →
        mapHas (run init evs).rooms info.roomId = false →
        mapGet (step (run init evs) (Event.sweep now)).1.uploadedFiles f = none) ∧
      (step (run init evs) (Event.sweep now)).1.rooms = (run init evs).rooms ∧
      (step (run init evs) (Event.sweep now)).2 = [] ∧
      step (step (run init evs) (Event.sweep now)).1 (Event.sweep now) =
        ((step (run init evs) (Event.sweep now)).1, []) := by
  have hstep : (step (run init evs) (Event.sweep now)).1 = sweep (run init evs) now := rfl
  have hiff : ∀ f info,
      mapGet (sweep (run init evs) now).uploadedFiles f = some info ↔
        mapGet (run init evs).uploadedFiles f = some info ∧
          ¬ ((now : Int) - (info.uploadedAt : Int) > 24 * 60 * 60 * 1000 ∧
            mapHas (run init evs).rooms info.roomId = false) := by
    intro f info
    rw [sweep_reachable evs now]
    simp only
    rw [mapGet_filter_iff _ _ (filesInv_run evs)]
    have hexp := isExpiredOrphan_iff now (run init evs).rooms info
    have hmax : maxAge = 24 * 60 * 60 * 1000 := rfl
    rw [hmax] at hexp
    constructor
    · rintro ⟨h1, h2⟩
      refine ⟨h1, fun hc => ?_⟩
      rw [hexp.2 hc] at h2
      cases h2
    · rintro ⟨h1, h2⟩
      refine ⟨h1, ?_⟩
      cases hb : isExpiredOrphan now (run init evs).rooms info
      · rfl
      · exact absurd (hexp.1 hb) h2
  rw [hstep]
  refine ⟨?_, hiff, ?_, ?_, rfl, ?_⟩
  · rw [sweep_reachable evs now]
  · intro f info hget hage horphan
    cases hafter : mapGet (sweep (run init evs) now).uploadedFiles f with
    | none => rfl
    | some info' =>
      obtain ⟨h1, h2⟩ := (hiff f info').1 hafter
      rw [hget] at h1
      cases h1
      exact absurd ⟨hage, horphan⟩ h2
  · rw [sweep_reachable evs now]
  · show (sweep (sweep (run init evs) now) now, ([] : List Emission)) = _
    rw [sweep_sweep_reachable]

/-! ## The chat relay -/

theorem string_mk_eq_empty (l : List Char) : String.mk l = "" ↔ l = [] := by
  constructor
  · intro h
    have := congrArg String.data h
    simpa using this
  · rintro rfl
    rfl

/-- The method `trim` returns the empty string exactly on blank texts. -/
theorem jsTrim_eq_empty_iff (message : String) : jsTrim message = "" ↔ isBlank message := by
  unfold jsTrim isBlank
  rw [string_mk_eq_empty, List.reverse_eq_nil_iff, List.dropWhile_eq_nil_iff]
  constructor
  · intro h
    have hdrop : List.dropWhile isJsWhiteSpace (List.dropWhile isJsWhiteSpace message.data) = [] :=
      List.dropWhile_eq_nil_iff.2 (fun x hx => h x (List.mem_reverse.2 hx))
    rw [List.dropWhile_idempotent] at hdrop
    exact List.dropWhile_eq_nil_iff.1 hdrop
  · intro h x hx
    rw [List.dropWhile_eq_nil_iff.2 h] at hx
    simp at hx

/-- The method `trim` removes a run of white space at either end and stops
at a character that is not white space. -/
theorem jsTrim_spec (message : String) :
    ∃ pre post, message.data = pre ++ (jsTrim message).data ++ post ∧
      (∀ c ∈ pre, isJsWhiteSpace c = true) ∧ (∀ c ∈ post, isJsWhiteSpace c = true) ∧
      (∀ c, (jsTrim message).data.head? = some c → isJsWhiteSpace c = false) ∧
      ∀ c, (jsTrim message).data.getLast? = some c → isJsWhiteSpace c = false := by
  have hdata : (jsTrim message).data =
      ((message.data.dropWhile isJsWhiteSpace).reverse.dropWhile isJsWhiteSpace).reverse := rfl
  have hsplit : message.data.dropWhile isJsWhiteSpace =
      (jsTrim message).data ++
        ((message.data.dropWhile isJsWhiteSpace).reverse.takeWhile isJsWhiteSpace).reverse := by
    have h := List.takeWhile_append_dropWhile isJsWhiteSpace
      (message.data.dropWhile isJsWhiteSpace).reverse
    have h' := congrArg List.reverse h
    rw [List.reverse_append, List.reverse_reverse] at h'
    rw [hdata]
    exact h'.symm
  have hlast : ∀ c, (jsTrim message).data.getLast? = some c → isJsWhiteSpace c = false := by
    intro c hc
    rw [hdata, List.getLast?_reverse] at hc
    have h := List.head?_dropWhile_not isJsWhiteSpace
      (message.data.dropWhile isJsWhiteSpace).reverse
    rw [hc] at h
    exact h
  refine ⟨message.data.takeWhile isJsWhiteSpace,
    ((message.data.dropWhile isJsWhiteSpace).reverse.takeWhile isJsWhiteSpace).reverse,
    ?_, ?_, ?_, ?_, hlast⟩
  · rw [List.append_assoc, ← hsplit, List.takeWhile_append_dropWhile]
  · intro c hc
    exact List.mem_takeWhile_imp hc
  · intro c hc
    exact List.mem_takeWhile_imp (List.mem_reverse.1 hc)
  · intro c hc
    have hne : (jsTrim message).data ≠ [] := by
      intro hnil
      rw [hnil] at hc
      cases hc
    have hhead : (message.data.dropWhile isJsWhiteSpace).head? = some c := by
      rw [hsplit, List.head?_append_of_ne_nil _ hne]
      exact hc
    have h := List.head?_dropWhile_not isJsWhiteSpace message.data
    rw [hhead] at h
    exact h

theorem step_chatMessage_blank (st : State) (id : SocketId) (message : String) (now : Nat)
    (hblank : isBlank message) : step st (Event.chatMessage id message now) = (st, []) := by
  have htrim := (jsTrim_eq_empty_iff message).2 hblank
  simp only [step, onSocket]
  split
  · rfl
  · unfold chatMessage
    split
    · rfl
    · rw [if_pos htrim]

theorem step_chatMessage_text (st : State) (id : SocketId) (sock : Socket) (r : RoomId)
    (message : String) (now : Nat) (hfind : findSocket st id = some sock)
    (hbound : boundRoom sock = some r) (htext : ¬ isBlank message) :
    step st (Event.chatMessage id message now) =
      (st, [ { msg := Msg.chatMessage (mkChatData sock message now), dest := ioTo st r } ]) := by
  have htrim : ¬ jsTrim message = "" := fun h => htext ((jsTrim_eq_empty_iff message).1 h)
  simp only [step, onSocket, hfind, chatMessage, hbound, if_neg htrim]

theorem roomId_of_boundRoom (sock : Socket) (r : RoomId) (h : boundRoom sock = some r) :
    sock.roomId = some r := by
  unfold boundRoom at h
  split at h
  · cases h
  · next r' hr' =>
    split at h
    · cases h
    · rw [hr']
      exact h

theorem step_chatMessage_empty_id (st : State) (id : SocketId) (sock : Socket)
    (message : String) (now : Nat) (hfind : findSocket st id = some sock)
    (hroomId : sock.roomId = some "") :
    step st (Event.chatMessage id message now) = (st, []) := by
  have hb : boundRoom sock = none := by simp [boundRoom, hroomId]
  simp only [step, onSocket, hfind, chatMessage, hb]

/-- C11 as stated fails: Bob is bound to the existing room whose id is the
empty string and sends a text that is not blank; the guard drops it and no
`chat-message` is emitted, neither to Alice nor to Bob. -/
theorem chat_dropped_in_empty_id_room :
    Joined (run init demoEmptyRoomId) "B" demoBobEmpty "" demoRoomEmpty ∧
      "B" ∈ mapKeys demoRoomEmpty.users ∧ jsTrim "hello" = "hello" ∧
      step (run init demoEmptyRoomId) (Event.chatMessage "B" "hello" 7) =
        (run init demoEmptyRoomId, []) :=
  ⟨⟨by decide, by decide, by decide⟩, by decide, by decide, by decide⟩

/-- C11 amended: a `chat-message` from a live connection bound to room `r`
(its `socket.roomId` is `r`), in a reachable state.  If the text is empty or
consists of white space only, nothing is emitted and the state is
unchanged.  Otherwise, when `r` is not the empty string, the state is
unchanged and exactly one `chat-message` is emitted, carrying the sender's
display name, the trimmed text, the time and the sender's connection id; it
is delivered to the sender and to every live connection that is bound to
the room or is a key of its participant map.  When `r` is the empty string
every text is dropped.  The trimmed text is the text without the white
space at its two ends. -/
theorem chat_relay (evs : List Event) (id : SocketId) (sock : Socket) (r : RoomId)
    (message : String) (now : Nat) (hfind : findSocket (run init evs) id = some sock)
    (hroomId : sock.roomId = some r) :
    (isBlank message →
        step (run init evs) (Event.chatMessage id message now) = (run init evs, [])) ∧
      (r = "" →
        step (run init evs) (Event.chatMessage id message now) = (run init evs, [])) ∧
      (¬ isBlank message → r ≠ "" →
        step (run init evs) (Event.chatMessage id message now) =
            (run init evs,
              [ { msg := Msg.chatMessage (mkChatData sock message now),
                  dest := ioTo (run init evs) r } ]) ∧
          (∃ name, sock.username = some name ∧
            mkChatData sock message now =
              [ ("username", JVal.str name), ("message", JVal.str (jsTrim message)),
                ("timestamp", JVal.num now), ("userId", JVal.str id) ]) ∧
          id ∈ ioTo (run init evs) r ∧
          ∀ t ∈ (run init evs).sockets,
            (t.roomId = some r ∨
              ∃ room, mapGet (run init evs).rooms r = some room ∧ t.id ∈ mapKeys room.users) →
            t.id ∈ ioTo (run init evs) r) ∧
      ∃ pre post, message.data = pre ++ (jsTrim message).data ++ post ∧
        (∀ c ∈ pre, isJsWhiteSpace c = true) ∧ (∀ c ∈ post, isJsWhiteSpace c = true) ∧
        (∀ c, (jsTrim message).data.head? = some c → isJsWhiteSpace c = false) ∧
        ∀ c, (jsTrim message).data.getLast? = some c → isJsWhiteSpace c = false := by
  have hmem := findSocket_mem _ id sock hfind
  have hid := findSocket_id _ id sock hfind
  obtain ⟨_, name, hname⟩ := sockInv_run evs sock hmem r hroomId
  refine ⟨fun hblank => step_chatMessage_blank _ id message now hblank, fun hempty => ?_,
    fun htext hr => ?_, jsTrim_spec message⟩
  · subst hempty
    exact step_chatMessage_empty_id _ id sock message now hfind hroomId
  have hbound := boundRoom_of_roomId sock r hroomId hr
  refine ⟨step_chatMessage_text _ id sock r message now hfind hbound htext, ⟨name, hname, ?_⟩,
    ?_, ?_⟩
  · rw [mkChatData, hname, hid]
    rfl
  · rw [← hid]
    exact mem_ioTo_of_reachable evs r sock hmem (Or.inl hbound)
  · intro t ht hin
    refine mem_ioTo_of_reachable evs r t ht ?_
    rcases hin with hin | hin
    · exact Or.inl (boundRoom_of_roomId t r hin hr)
    · exact Or.inr hin

theorem chat_relay_witness :
    findSocket (run init demoTwoInRoom) "B" = some demoBob ∧
      demoBob.roomId = some "r" ∧ ("r" : RoomId) ≠ "" ∧
      step (run init demoTwoInRoom) (Event.chatMessage "B" " \t\n" 7) =
        (run init demoTwoInRoom, []) ∧
      step (run init demoTwoInRoom) (Event.chatMessage "B" "  hi there \n" 7) =
        (run init demoTwoInRoom,
          [ { msg := Msg.chatMessage
                [ ("username", JVal.str "Bob"), ("message", JVal.str "hi there"),
                  ("timestamp", JVal.num 7), ("userId", JVal.str "B") ],
              dest := ["A", "B"] } ]) :=
  ⟨by decide, by decide, by decide,
    (chat_relay demoTwoInRoom "B" demoBob "r" " \t\n" 7 (by decide) (by decide)).1
      (by unfold isBlank; decide),
    ((chat_relay demoTwoInRoom "B" demoBob "r" "  hi there \n" 7 (by decide) (by decide)).2.2.1
      (by unfold isBlank; decide) (by decide)).1⟩

end SyncStream
